import Mathlib

/-!
# Verification of the iris wallet's local bookkeeping core

A shallow embedding, in Lean 4, of the per-account note ledger, wallet
transaction ledger, coin selector, reconciliation (sync) engine and send
orchestration of the iris wallet extension
(`src/extension/shared/vault.ts` and `src/unnamed/part_003`,
the UTXO utility module).

Modelling conventions:
* JavaScript integers (note amounts, fees) are `Nat` (the spec declares
  them non-negative integers in the base unit); timestamps are `Int`.
* The per-account slice of the vault's in-memory state
  (`utxoStore[addr].notes`, `utxoStore[addr].version`,
  `walletTxStore[addr]`) is an explicit `AccountState` record threaded
  through each operation.
* A thrown JS exception that leaves in-memory mutations behind is
  modelled by returning the mutated state together with a `threw` flag
  (`markNotesInFlight`), or by an explicit error branch that carries the
  state reached so far (`sendTransactionV2`).
* External collaborators (chain fetch, transaction construction,
  broadcast, fresh transaction-id generation) are parameters of the
  functions that call them.
* Opaque payload fields that the code only copies (such as `protoNote`)
  are omitted; every field the code reads or branches on is present.
-/

namespace Iris

/-- Spend state of a stored note (`NoteState` in `types`). -/
inductive NoteState
  | available
  | in_flight
  | spent
deriving DecidableEq, Repr

/-- Status of a wallet transaction (`WalletTransaction['status']`). -/
inductive TxStatus
  | created
  | broadcast_pending
  | broadcasted_unconfirmed
  | confirmed
  | failed
  | expired
deriving DecidableEq, Repr

/-- Direction of a wallet transaction. -/
inductive TxDirection
  | incoming
  | outgoing
deriving DecidableEq, Repr

/-- A note in the per-account UTXO store (`StoredNote` in `types`,
populated by `noteToStoredNote` / `fetchedToStoredNote` in
`src/unnamed/part_003`). -/
structure StoredNote where
  noteId : String
  accountAddress : String
  sourceHash : String
  originPage : Int
  assets : Nat
  nameFirst : String
  nameLast : String
  noteDataHashBase58 : String
  state : NoteState
  isChange : Option Bool := none
  pendingTxId : Option String := none
  discoveredAt : Int := 0
deriving DecidableEq, Repr

/-- A locally recorded transaction (`WalletTransaction` in `types`).
The optional `priceUsdAtTime` annotation is a floating-point display
field never branched on; it is omitted. -/
structure WalletTransaction where
  id : String
  txHash : Option String := none
  accountAddress : String
  direction : TxDirection
  createdAt : Int
  updatedAt : Int
  status : TxStatus
  amount : Nat
  fee : Option Nat := none
  recipient : Option String := none
  inputNoteIds : Option (List String) := none
  receivedNoteIds : Option (List String) := none
  expectedChange : Option Nat := none
  expectedChangeNoteIds : Option (List String) := none
deriving DecidableEq, Repr

/-- The per-account slice of the vault's mutable state:
`utxoStore[addr]` (notes + version counter) and `walletTxStore[addr]`. -/
structure AccountState where
  notes : List StoredNote
  version : Nat
  txs : List WalletTransaction
deriving DecidableEq, Repr

/-- A chain-fetched UTXO (`FetchedUTXO` in `types`, built by
`Vault.noteToFetchedUTXO`). -/
structure FetchedUTXO where
  noteId : String
  sourceHash : String
  originPage : Int
  assets : Nat
  nameFirst : String
  nameLast : String
  noteDataHashBase58 : String
deriving DecidableEq, Repr

/-! ## Note ledger operations (`vault.ts` UTXO store setters) -/

/-- One `Map.set` step of the merge in `Vault.saveNotes`: overwrite the
value at an existing key in place, otherwise append (JS `Map` keeps the
original insertion position on overwrite). -/
def setAssoc (m : List (String × StoredNote)) (k : String) (v : StoredNote) :
    List (String × StoredNote) :=
  if m.any (fun p => p.1 = k) then
    m.map (fun p => if p.1 = k then (k, v) else p)
  else m ++ [(k, v)]

/-- The merge in `Vault.saveNotes`: build a `Map` keyed by `noteId` from
the existing notes, overwrite/append each new note, take the values. -/
def upsertNotes (existing newNotes : List StoredNote) : List StoredNote :=
  ((existing ++ newNotes).foldl (fun m n => setAssoc m n.noteId n) []).map Prod.snd

/-- `Vault.saveNotes` (merge a batch of notes by `noteId`, bump version). -/
def saveNotes (s : AccountState) (newNotes : List StoredNote) : AccountState :=
  { s with notes := upsertNotes s.notes newNotes, version := s.version + 1 }

/-- The note mutation done by `Vault.markNotesInFlight` on a matched
available note. -/
def lockNote (txId : String) (n : StoredNote) : StoredNote :=
  { n with state := NoteState.in_flight, pendingTxId := some txId }

/-- The scan loop of `Vault.markNotesInFlight`. Returns the note list as
left in memory (mutations before a throw persist), the number of notes
locked, and whether the loop threw on a matched non-available note. -/
def markNotesInFlightLoop (noteIds : List String) (txId : String) :
    List StoredNote → List StoredNote × Nat × Bool
  | [] => ([], 0, false)
  | n :: rest =>
    if n.noteId ∈ noteIds then
      if n.state ≠ NoteState.available then
        (n :: rest, 0, true)
      else
        let r := markNotesInFlightLoop noteIds txId rest
        (lockNote txId n :: r.1, r.2.1 + 1, r.2.2)
    else
      let r := markNotesInFlightLoop noteIds txId rest
      (n :: r.1, r.2.1, r.2.2)

/-- `Vault.markNotesInFlight`: transition the named notes from
`available` to `in_flight` tagged with `txId`. The returned flag is
`true` when the method threw (a matched note was not `available`, or
fewer notes were found than ids requested); the returned state keeps any
in-place mutations made before the throw. The version counter is bumped
only on the success path. -/
def markNotesInFlight (s : AccountState) (noteIds : List String) (txId : String) :
    Bool × AccountState :=
  let r := markNotesInFlightLoop noteIds txId s.notes
  if r.2.2 then (true, { s with notes := r.1 })
  else if r.2.1 ≠ noteIds.length then (true, { s with notes := r.1 })
  else (false, { s with notes := r.1, version := s.version + 1 })

/-- `Vault.markNotesSpent`: unconditionally mark the named notes spent. -/
def markNotesSpent (s : AccountState) (noteIds : List String) : AccountState :=
  { s with
    notes := s.notes.map (fun n =>
      if n.noteId ∈ noteIds then { n with state := NoteState.spent } else n)
    version := s.version + 1 }

/-- `Vault.releaseInFlightNotes`: named notes currently `in_flight` go
back to `available` with `pendingTxId` deleted; others untouched. -/
def releaseInFlightNotes (s : AccountState) (noteIds : List String) : AccountState :=
  { s with
    notes := s.notes.map (fun n =>
      if n.noteId ∈ noteIds ∧ n.state = NoteState.in_flight then
        { n with state := NoteState.available, pendingTxId := none }
      else n)
    version := s.version + 1 }

/-- Default retention window of `Vault.removeSpentNotes` (1 hour). -/
def SPENT_RETENTION_MS : Int := 60 * 60 * 1000

/-- `Vault.removeSpentNotes`: drop spent notes older than the retention
window (a missing/zero `discoveredAt` is falsy in JS, so such spent
notes are dropped too); bump the version only if something was removed. -/
def removeSpentNotes (s : AccountState) (now maxAgeMs : Int) : AccountState :=
  let cutoff := now - maxAgeMs
  let kept := s.notes.filter (fun n =>
    n.state ≠ NoteState.spent ∨ (n.discoveredAt ≠ 0 ∧ n.discoveredAt > cutoff))
  if kept.length < s.notes.length then
    { s with notes := kept, version := s.version + 1 }
  else { s with notes := kept }

/-! ## Wallet transaction ledger operations -/

/-- `Vault.addWalletTransaction`: silently skip a duplicate id,
otherwise unshift to the front and truncate the history to 200. -/
def addWalletTransaction (s : AccountState) (tx : WalletTransaction) : AccountState :=
  if s.txs.any (fun t => t.id = tx.id) then s
  else { s with txs := (tx :: s.txs).take 200 }

/-- The partial-update record passed to `Vault.updateWalletTransaction`
(the fields the source ever updates). -/
structure TxUpdate where
  status : Option TxStatus := none
  fee : Option Nat := none
  txHash : Option String := none
  expectedChangeNoteIds : Option (List String) := none
deriving Repr

/-- The object spread `{ ...tx, ...updates, updatedAt: Date.now() }`. -/
def applyTxUpdate (tx : WalletTransaction) (u : TxUpdate) (now : Int) :
    WalletTransaction :=
  { tx with
    status := u.status.getD tx.status
    fee := match u.fee with | some f => some f | none => tx.fee
    txHash := match u.txHash with | some h => some h | none => tx.txHash
    expectedChangeNoteIds :=
      match u.expectedChangeNoteIds with
      | some l => some l
      | none => tx.expectedChangeNoteIds
    updatedAt := now }

/-- Replace the first transaction whose id matches (`findIndex` + write
back); `none` when the id is unknown. -/
def updateFirstTx (txId : String) (u : TxUpdate) (now : Int) :
    List WalletTransaction → Option (List WalletTransaction)
  | [] => none
  | t :: rest =>
    if t.id = txId then some (applyTxUpdate t u now :: rest)
    else (updateFirstTx txId u now rest).map (t :: ·)

/-- `Vault.updateWalletTransaction`: update fields of the first
transaction with the given id; logged no-op when the id is unknown. -/
def updateWalletTransaction (s : AccountState) (txId : String) (u : TxUpdate)
    (now : Int) : AccountState :=
  match updateFirstTx txId u now s.txs with
  | none => s
  | some l => { s with txs := l }

/-- `Vault.getPendingOutgoingTransactions`. -/
def getPendingOutgoingTransactions (s : AccountState) : List WalletTransaction :=
  s.txs.filter (fun t =>
    t.direction == TxDirection.outgoing &&
      (t.status == TxStatus.created || t.status == TxStatus.broadcast_pending ||
        t.status == TxStatus.broadcasted_unconfirmed))

/-- `Vault.getAllOutgoingTransactions`. -/
def getAllOutgoingTransactions (s : AccountState) : List WalletTransaction :=
  s.txs.filter (fun t => t.direction == TxDirection.outgoing)

/-! ## Coin selector (`selectNotesForAmount`, vault.ts lines 108-126) -/

/-- One insertion step of a stable descending sort on `assets`
(the JS `sort((a, b) => b.assets - a.assets)`, which is stable). -/
def insertDesc (n : StoredNote) : List StoredNote → List StoredNote
  | [] => [n]
  | m :: rest => if n.assets ≥ m.assets then n :: m :: rest else m :: insertDesc n rest

/-- Stable sort by descending `assets`. -/
def sortNotesDesc (notes : List StoredNote) : List StoredNote :=
  notes.foldr insertDesc []

/-- The accumulation loop of `selectNotesForAmount`: push notes in order
until the running total meets the target; `none` when the list runs out
first. -/
def selectLoop (targetAmount : Nat) (acc : List StoredNote) (total : Nat) :
    List StoredNote → Option (List StoredNote)
  | [] => none
  | n :: rest =>
    let acc' := acc ++ [n]
    let total' := total + n.assets
    if total' ≥ targetAmount then some acc'
    else selectLoop targetAmount acc' total' rest

/-- `selectNotesForAmount`: greedy largest-first coin selection;
`none` means insufficient funds. -/
def selectNotesForAmount (notes : List StoredNote) (targetAmount : Nat) :
    Option (List StoredNote) :=
  selectLoop targetAmount [] 0 (sortNotesDesc notes)

/-! ## Balance summary (`Vault.getAccountBalanceSummary`) -/

/-- The record returned by `Vault.getAccountBalanceSummary`. -/
structure BalanceSummary where
  available : Nat
  spendableNow : Nat
  pendingOut : Nat
  pendingChange : Nat
  total : Nat
  utxoCount : Nat
  availableUtxoCount : Nat
deriving DecidableEq, Repr

/-- `Vault.getAccountBalanceSummary` (vault.ts lines 1124-1156). -/
def getAccountBalanceSummary (s : AccountState) : BalanceSummary :=
  let notes := s.notes
  let pendingTxs := getPendingOutgoingTransactions s
  let availableNotes := notes.filter (fun n => n.state == NoteState.available)
  let pendingNotes := notes.filter (fun n => n.state == NoteState.in_flight)
  let availableFromNotes := availableNotes.foldl (fun sum n => sum + n.assets) 0
  let pendingOut := pendingNotes.foldl (fun sum n => sum + n.assets) 0
  let pendingChange := pendingTxs.foldl (fun sum t => sum + t.expectedChange.getD 0) 0
  { available := availableFromNotes + pendingChange
    spendableNow := availableFromNotes
    pendingOut := pendingOut
    pendingChange := pendingChange
    total := availableFromNotes + pendingOut
    utxoCount := (notes.filter (fun n => n.state != NoteState.spent)).length
    availableUtxoCount := availableNotes.length }

/-! ## Reconciliation helpers

The `utxo-diff` module (`computeUTXODiff`, `classifyNewUTXO`,
`areTransactionInputsSpent`, `matchChangeOutputs`,
`findExpiredTransactions`) is imported by `vault.ts` but its source file
is not among the repository sources; the definitions below are modelled
from the specification's reconciliation algorithm (spec §4.5). -/

/-- `fetchedToStoredNote` (`src/unnamed/part_003`): convert a chain
UTXO to a stored note; `Date.now()` is the `now` parameter. -/
def fetchedToStoredNote (fetched : FetchedUTXO) (accountAddress : String)
    (state : NoteState) (isChange : Option Bool) (now : Int) : StoredNote :=
  { noteId := fetched.noteId
    accountAddress := accountAddress
    sourceHash := fetched.sourceHash
    originPage := fetched.originPage
    assets := fetched.assets
    nameFirst := fetched.nameFirst
    nameLast := fetched.nameLast
    noteDataHashBase58 := fetched.noteDataHashBase58
    state := state
    isChange := isChange
    pendingTxId := none
    discoveredAt := now }

/-- The diff record produced by `computeUTXODiff`: notes now observed
spent, chain notes not yet known locally, and the change-attribution map
from new note id to originating outgoing transaction id. -/
structure UTXODiff where
  nowSpent : List StoredNote
  newUTXOs : List FetchedUTXO
  isChangeMap : List (String × String)
deriving DecidableEq, Repr

/-- Modelled from the spec: `computeUTXODiff` (the `utxo-diff` module is
not among the sources). Spec §4.5 steps 1-3: a locally known, not yet
spent note absent from the chain-visible set is now spent; a
chain-visible note not known locally is new; a new note is attributed as
change of an outgoing transaction when it matches that transaction's
expected-change heuristic (modelled as: the first outgoing transaction
whose recorded `expectedChange` equals the note's amount). -/
def computeUTXODiff (localNotes : List StoredNote) (fetched : List FetchedUTXO)
    (_pendingTxs allOutgoingTxs : List WalletTransaction) : UTXODiff :=
  let fetchedIds := fetched.map (·.noteId)
  let localIds := localNotes.map (·.noteId)
  let nowSpent := localNotes.filter (fun n =>
    n.state != NoteState.spent && !(fetchedIds.contains n.noteId))
  let newUTXOs := fetched.filter (fun u => !(localIds.contains u.noteId))
  let isChangeMap := newUTXOs.filterMap (fun u =>
    (allOutgoingTxs.find? (fun t => t.expectedChange == some u.assets)).map
      (fun t => (u.noteId, t.id)))
  ⟨nowSpent, newUTXOs, isChangeMap⟩

/-- Modelled from the spec: `classifyNewUTXO` (the `utxo-diff` module is
not among the sources). Spec §4.5 step 3: classify a new note as change
(tagged with the originating transaction id) or incoming. -/
def classifyNewUTXO (u : FetchedUTXO) (isChangeMap : List (String × String)) :
    Bool × Option String :=
  match isChangeMap.lookup u.noteId with
  | some txId => (true, some txId)
  | none => (false, none)

/-- Modelled from the spec: `areTransactionInputsSpent` (the `utxo-diff`
module is not among the sources). Spec §4.5 step 2: a pending outgoing
transaction is confirmed when its entire (non-empty) input-note set is
among the newly spent notes; transactions without recorded inputs are
skipped (mirroring the explicit empty-input skip in sync step 5b). -/
def areTransactionInputsSpent (tx : WalletTransaction)
    (nowSpent : List StoredNote) : Bool :=
  match tx.inputNoteIds with
  | none => false
  | some [] => false
  | some ids => ids.all (fun i => (nowSpent.map (·.noteId)).contains i)

/-- Modelled from the spec: `matchChangeOutputs` (the `utxo-diff` module
is not among the sources). Spec §4.5 step 2: the realized change notes
of a confirmed transaction are the new notes the attribution map ties to
that transaction's id. -/
def matchChangeOutputs (tx : WalletTransaction) (newUTXOs : List FetchedUTXO)
    (isChangeMap : List (String × String)) : List String :=
  (newUTXOs.filter (fun u => isChangeMap.lookup u.noteId == some tx.id)).map (·.noteId)

/-- `Vault.TX_EXPIRY_MS`: 6 hours. -/
def TX_EXPIRY_MS : Int := 6 * 60 * 60 * 1000

/-- Modelled from the spec: `findExpiredTransactions` (the `utxo-diff`
module is not among the sources). Spec §4.5 step 5: any still
non-terminal outgoing transaction older than the expiry window. -/
def findExpiredTransactions (txs : List WalletTransaction) (expiryMs now : Int) :
    List WalletTransaction :=
  txs.filter (fun t =>
    t.direction == TxDirection.outgoing &&
      (t.status == TxStatus.created || t.status == TxStatus.broadcast_pending ||
        t.status == TxStatus.broadcasted_unconfirmed) &&
      decide (now - t.createdAt > expiryMs))

/-! ## Reconciliation engine (`Vault.syncAccountUTXOs`, vault.ts 979-1119)

The chain fetch is a parameter (`chain`), `Date.now()` is `now`, and
`crypto.randomUUID()` draws from the `freshIds` supply. The stages below
follow the numbered steps of the source method in order. -/

/-- The summary returned by `Vault.syncAccountUTXOs`. -/
structure SyncSummary where
  newIncoming : Nat
  newChange : Nat
  spent : Nat
  confirmed : Nat
  expired : Nat
deriving DecidableEq, Repr

/-- Sync step 4: when notes were newly observed spent, mark them spent
and confirm every pending transaction whose whole input set is among
them (recording its matched change-note ids). -/
def syncSpentStage (s : AccountState) (diff : UTXODiff)
    (pendingTxs : List WalletTransaction) (now : Int) : AccountState :=
  if diff.nowSpent.isEmpty then s
  else
    let s1 := markNotesSpent s (diff.nowSpent.map (·.noteId))
    pendingTxs.foldl (fun acc tx =>
      if areTransactionInputsSpent tx diff.nowSpent then
        updateWalletTransaction acc tx.id
          { status := some TxStatus.confirmed
            expectedChangeNoteIds :=
              some (matchChangeOutputs tx diff.newUTXOs diff.isChangeMap) } now
      else acc) s1

/-- The incoming `WalletTransaction` record spawned by sync step 5 for a
newly observed non-change note. -/
def incomingTxFor (accountAddress freshId : String) (u : FetchedUTXO) (now : Int) :
    WalletTransaction :=
  { id := freshId
    txHash := some u.sourceHash
    accountAddress := accountAddress
    direction := TxDirection.incoming
    createdAt := now
    updatedAt := now
    status := TxStatus.confirmed
    amount := u.assets
    receivedNoteIds := some [u.noteId] }

/-- One iteration of sync step 5: classify a new chain note; a change
note is tagged with its originating transaction id, an incoming note
spawns a `confirmed` incoming `WalletTransaction` (consuming a fresh
id). Accumulates the stored notes to save and the two counters. -/
def processNewUTXO (accountAddress : String) (isChangeMap : List (String × String))
    (now : Int) (acc : AccountState × List StoredNote × Nat × Nat × List String)
    (u : FetchedUTXO) : AccountState × List StoredNote × Nat × Nat × List String :=
  match classifyNewUTXO u isChangeMap with
  | (true, some txId) =>
    (acc.1,
      acc.2.1 ++
        [{ fetchedToStoredNote u accountAddress NoteState.available (some true) now with
            pendingTxId := some txId }],
      acc.2.2.1, acc.2.2.2.1 + 1, acc.2.2.2.2)
  | (isChange, _) =>
    (addWalletTransaction acc.1 (incomingTxFor accountAddress (acc.2.2.2.2.headD "") u now),
      acc.2.1 ++ [fetchedToStoredNote u accountAddress NoteState.available (some isChange) now],
      acc.2.2.1 + 1, acc.2.2.2.1, acc.2.2.2.2.tail)

/-- Sync step 5: process all new chain notes, then save them (merge)
when any exist. Returns the new state and the (newIncoming, newChange)
counters. -/
def syncNewStage (s : AccountState) (accountAddress : String) (diff : UTXODiff)
    (now : Int) (freshIds : List String) : AccountState × Nat × Nat :=
  let r := diff.newUTXOs.foldl (processNewUTXO accountAddress diff.isChangeMap now)
    (s, [], 0, 0, freshIds)
  let s2 := if r.2.1.isEmpty then r.1 else saveNotes r.1 r.2.1
  (s2, r.2.2.1, r.2.2.2.1)

/-- Sync step 5b: re-check the transactions still pending against notes
already recorded spent (from prior passes); confirm those whose
non-empty input set is entirely spent. -/
def syncPrevSpentStage (s : AccountState) (pendingTxs : List WalletTransaction)
    (diff : UTXODiff) (now : Int) : AccountState × Nat :=
  let stillPendingTxs := pendingTxs.filter (fun tx =>
    !(areTransactionInputsSpent tx diff.nowSpent))
  if stillPendingTxs.isEmpty then (s, 0)
  else
    let spentIds := (s.notes.filter (fun n => n.state == NoteState.spent)).map (·.noteId)
    stillPendingTxs.foldl (fun (acc : AccountState × Nat) tx =>
      match tx.inputNoteIds with
      | none => acc
      | some [] => acc
      | some ids =>
        if ids.all (fun i => spentIds.contains i) then
          (updateWalletTransaction acc.1 tx.id { status := some TxStatus.confirmed } now,
            acc.2 + 1)
        else acc) (s, 0)

/-- Sync step 6: release the in-flight input notes of every expired
transaction and mark it `expired`. -/
def syncExpiryStage (s : AccountState) (now : Int) : AccountState × Nat :=
  let expiredTxs := findExpiredTransactions s.txs TX_EXPIRY_MS now
  let s1 := expiredTxs.foldl (fun acc tx =>
    let acc1 := match tx.inputNoteIds with
      | some (i :: rest) => releaseInFlightNotes acc (i :: rest)
      | _ => acc
    updateWalletTransaction acc1 tx.id { status := some TxStatus.expired } now) s
  (s1, expiredTxs.length)

/-- `Vault.syncAccountUTXOs`: one reconciliation pass of the local
ledger against the chain-visible notes, returning the new state and the
change summary. Mirrors the source's step order: diff, spent marking and
confirmation, new-note processing, prior-spent re-check, expiry, spent
cleanup. -/
def syncAccountUTXOs (s : AccountState) (accountAddress : String)
    (chain : List FetchedUTXO) (now : Int) (freshIds : List String) :
    AccountState × SyncSummary :=
  let pendingTxs := getPendingOutgoingTransactions s
  let allOutgoingTxs := getAllOutgoingTransactions s
  let diff := computeUTXODiff s.notes chain pendingTxs allOutgoingTxs
  let s1 := syncSpentStage s diff pendingTxs now
  let r2 := syncNewStage s1 accountAddress diff now freshIds
  let r3 := syncPrevSpentStage r2.1 pendingTxs diff now
  let r4 := syncExpiryStage r3.1 now
  let s5 := removeSpentNotes r4.1 now SPENT_RETENTION_MS
  let confirmedFromNewSpent := (pendingTxs.filter (fun tx =>
    areTransactionInputsSpent tx diff.nowSpent)).length
  (s5,
    { newIncoming := r2.2.1
      newChange := r2.2.2
      spent := diff.nowSpent.length
      confirmed := confirmedFromNewSpent + r3.2
      expired := r4.2 })

/-! ## Send orchestration (`Vault.sendTransactionV2`, vault.ts 1906-2073)

The external construction/signing service (`buildMultiNotePayment`) and
the broadcast call (`rpcClient.sendTransaction`) are parameters: each is
either a thrown error message or a success value. The freshly generated
wallet transaction id (`crypto.randomUUID()`) is the `walletTxId`
parameter. Only the ledger-relevant part of the method is modelled (key
derivation and WASM memory management do not touch the ledgers). -/

/-- Result of a successful `buildMultiNotePayment` call: the fee
actually used and the chain transaction id. -/
structure BuildOk where
  feeUsed : Nat
  txId : String
deriving DecidableEq, Repr

/-- Modelled from the spec: `NOCK_TO_NICKS` lives in the `constants`
module, which is not among the sources; the Nick is the integer base
unit of the asset (2^16 nicks per NOCK). Only its positivity matters
here (it feeds the default fee estimate `2 * NOCK_TO_NICKS`). -/
def NOCK_TO_NICKS : Nat := 65536

/-- The selection step of `sendTransactionV2` (lines 1961-1982): in
sweep mode take every available note with expected change 0; otherwise
run the greedy selector against `amount + estimatedFee` and record the
expected change. `none` means insufficient funds. -/
def sendSelection (availableStoredNotes : List StoredNote) (amount estimatedFee : Nat)
    (sendMax : Bool) : Option (List StoredNote × Nat) :=
  if sendMax then some (availableStoredNotes, 0)
  else
    match selectNotesForAmount availableStoredNotes (amount + estimatedFee) with
    | none => none
    | some selected =>
      let selectedTotal := selected.foldl (fun sum n => sum + n.assets) 0
      some (selected, selectedTotal - amount - estimatedFee)

/-- The `catch` block of `sendTransactionV2` (lines 2052-2071): when
notes were selected, release them and mark the wallet transaction
`failed`; report the failure with the underlying cause. -/
def sendCatch (s : AccountState) (selectedNoteIds : List String)
    (walletTxId errMsg : String) (now : Int) :
    Except String BuildOk × AccountState :=
  if selectedNoteIds.isEmpty then
    (Except.error ("Transaction failed: " ++ errMsg), s)
  else
    let s1 := releaseInFlightNotes s selectedNoteIds
    let s2 := updateWalletTransaction s1 walletTxId
      { status := some TxStatus.failed } now
    (Except.error ("Transaction failed: " ++ errMsg), s2)

/-- `Vault.sendTransactionV2` from the point the account lock is held:
select notes, lock them, append a `created` transaction, build,
broadcast, and update to `broadcasted_unconfirmed`; any thrown step
lands in `sendCatch`. The returned value is the success record (with
the fee used and chain tx id) or the error string, paired with the
final in-memory account state. -/
def sendTransactionV2 (s : AccountState) (accountAddress walletTxId toAddress : String)
    (amount : Nat) (fee : Option Nat) (sendMax : Bool)
    (buildResult : Except String BuildOk) (broadcastResult : Except String Unit)
    (now : Int) : Except String BuildOk × AccountState :=
  let availableStoredNotes := s.notes.filter (fun n => n.state == NoteState.available)
  if availableStoredNotes.isEmpty then (Except.error "No available UTXOs.", s)
  else
    let estimatedFee := fee.getD (2 * NOCK_TO_NICKS)
    match sendSelection availableStoredNotes amount estimatedFee sendMax with
    | none => (Except.error "Insufficient available funds", s)
    | some (selectedStoredNotes, expectedChange) =>
      let selectedNoteIds := selectedStoredNotes.map (·.noteId)
      let lockResult := markNotesInFlight s selectedNoteIds walletTxId
      if lockResult.1 then
        sendCatch lockResult.2 selectedNoteIds walletTxId
          "Failed to lock notes" now
      else
        let walletTx : WalletTransaction :=
          { id := walletTxId
            accountAddress := accountAddress
            direction := TxDirection.outgoing
            createdAt := now
            updatedAt := now
            status := TxStatus.created
            inputNoteIds := some selectedNoteIds
            recipient := some toAddress
            amount := amount
            fee := some estimatedFee
            expectedChange := some (if expectedChange > 0 then expectedChange else 0) }
        let s2 := addWalletTransaction lockResult.2 walletTx
        match buildResult with
        | Except.error e => sendCatch s2 selectedNoteIds walletTxId e now
        | Except.ok built =>
          match broadcastResult with
          | Except.error e => sendCatch s2 selectedNoteIds walletTxId e now
          | Except.ok _ =>
            let s3 := updateWalletTransaction s2 walletTxId
              { fee := some built.feeUsed
                txHash := some built.txId
                status := some TxStatus.broadcasted_unconfirmed } now
            (Except.ok built, s3)

/-! ## General helper lemmas -/

theorem foldl_add_map {α : Type} (f : α → Nat) :
    ∀ (l : List α) (a : Nat), l.foldl (fun s x => s + f x) a = a + (l.map f).sum := by
  intro l
  induction l with
  | nil => simp
  | cons x xs ih =>
    intro a
    simp [List.foldl_cons, ih, Nat.add_assoc]

theorem foldl_invariant {α σ : Type} (P : σ → Prop) (f : σ → α → σ) :
    ∀ (l : List α) (s : σ), P s → (∀ s' x, x ∈ l → P s' → P (f s' x)) →
      P (l.foldl f s) := by
  intro l
  induction l with
  | nil => intro s hs _; simpa using hs
  | cons x xs ih =>
    intro s hs hstep
    simp only [List.foldl_cons]
    exact ih (f s x) (hstep s x (List.mem_cons_self x xs) hs)
      (fun s' y hy => hstep s' y (List.mem_cons_of_mem x hy))

/-! ## C10: balance summary -/

/-- C10: the balance summary satisfies: `spendableNow` is the sum of
amounts of `available` notes; `pendingOut` the sum over `in_flight`
notes; `pendingChange` the sum of `expectedChange` over pending
outgoing transactions; `available = spendableNow + pendingChange`
(including not-yet-observed expected change); and
`total = spendableNow + pendingOut` (excluding expected change and
spent notes). -/
theorem getAccountBalanceSummary_correct (s : AccountState) :
    (getAccountBalanceSummary s).spendableNow =
      ((s.notes.filter (fun n => n.state == NoteState.available)).map (·.assets)).sum ∧
    (getAccountBalanceSummary s).pendingOut =
      ((s.notes.filter (fun n => n.state == NoteState.in_flight)).map (·.assets)).sum ∧
    (getAccountBalanceSummary s).pendingChange =
      ((getPendingOutgoingTransactions s).map (fun t => t.expectedChange.getD 0)).sum ∧
    (getAccountBalanceSummary s).available =
      (getAccountBalanceSummary s).spendableNow +
        (getAccountBalanceSummary s).pendingChange ∧
    (getAccountBalanceSummary s).total =
      (getAccountBalanceSummary s).spendableNow +
        (getAccountBalanceSummary s).pendingOut := by
  unfold getAccountBalanceSummary
  refine ⟨?_, ?_, ?_, rfl, rfl⟩ <;> simp [foldl_add_map]

/-! ## C8: wallet transaction append -/

/-- C8: appending a transaction whose id already exists leaves the
history unchanged; a successful append places the transaction at the
front and the history becomes the first 200 entries of the new list
(evicting the rearmost, i.e. oldest, entries beyond the bound). -/
theorem addWalletTransaction_spec (s : AccountState) (tx : WalletTransaction) :
    ((∃ t ∈ s.txs, t.id = tx.id) → addWalletTransaction s tx = s) ∧
    ((∀ t ∈ s.txs, t.id ≠ tx.id) →
      (addWalletTransaction s tx).txs = (tx :: s.txs).take 200 ∧
      (addWalletTransaction s tx).txs.head? = some tx ∧
      (addWalletTransaction s tx).txs.length = min (s.txs.length + 1) 200) := by
  constructor
  · rintro ⟨t, ht, hid⟩
    unfold addWalletTransaction
    rw [if_pos]
    exact List.any_eq_true.mpr ⟨t, ht, decide_eq_true hid⟩
  · intro h
    have hany : (s.txs.any fun t => decide (t.id = tx.id)) = false := by
      rw [List.any_eq_false]
      intro t ht
      simpa using h t ht
    unfold addWalletTransaction
    simp only [hany]
    refine ⟨rfl, ?_, ?_⟩
    · rw [List.take_cons (by omega)]
      rfl
    · rw [if_neg (by simp), List.length_take, List.length_cons]
      omega

/-- A minimal outgoing transaction used in concrete witnesses. -/
def sampleTx (i : String) (st : TxStatus) (created : Int) : WalletTransaction :=
  { id := i
    accountAddress := "addr1"
    direction := TxDirection.outgoing
    createdAt := created
    updatedAt := created
    status := st
    amount := 1 }

/-- Witness for C8 at a concrete input: a duplicate append is dropped. -/
theorem addWalletTransaction_spec_witness :
    addWalletTransaction ⟨[], 0, [sampleTx "t1" TxStatus.created 0]⟩
        (sampleTx "t1" TxStatus.failed 5) =
      ⟨[], 0, [sampleTx "t1" TxStatus.created 0]⟩ := by
  exact (addWalletTransaction_spec _ _).1 ⟨_, List.mem_singleton_self _, rfl⟩

/-! ## C7: greedy coin selection -/

theorem insertDesc_perm (n : StoredNote) :
    ∀ l : List StoredNote, (insertDesc n l).Perm (n :: l) := by
  intro l
  induction l with
  | nil => simp [insertDesc]
  | cons m rest ih =>
    unfold insertDesc
    by_cases h : n.assets ≥ m.assets
    · rw [if_pos h]
    · rw [if_neg h]
      exact (ih.cons m).trans (List.Perm.swap n m rest)

theorem sortNotesDesc_perm (l : List StoredNote) : (sortNotesDesc l).Perm l := by
  induction l with
  | nil => simp [sortNotesDesc]
  | cons n rest ih =>
    unfold sortNotesDesc at ih ⊢
    rw [List.foldr_cons]
    exact (insertDesc_perm n _).trans (ih.cons n)

theorem insertDesc_pairwise (n : StoredNote) :
    ∀ l : List StoredNote, l.Pairwise (fun a b => b.assets ≤ a.assets) →
      (insertDesc n l).Pairwise (fun a b => b.assets ≤ a.assets) := by
  intro l
  induction l with
  | nil => intro _; simp [insertDesc]
  | cons m rest ih =>
    intro hp
    rcases List.pairwise_cons.mp hp with ⟨hm, hrest⟩
    unfold insertDesc
    by_cases h : n.assets ≥ m.assets
    · rw [if_pos h]
      refine List.pairwise_cons.mpr ⟨?_, hp⟩
      intro b hb
      rcases List.mem_cons.mp hb with rfl | hb
      · exact h
      · exact le_trans (hm b hb) h
    · rw [if_neg h]
      refine List.pairwise_cons.mpr ⟨?_, ih hrest⟩
      intro b hb
      have := (insertDesc_perm n rest).mem_iff.mp hb
      rcases List.mem_cons.mp this with rfl | hb2
      · omega
      · exact hm b hb2

theorem sortNotesDesc_sorted (l : List StoredNote) :
    (sortNotesDesc l).Pairwise (fun a b => b.assets ≤ a.assets) := by
  induction l with
  | nil => simp [sortNotesDesc]
  | cons n rest ih =>
    unfold sortNotesDesc at ih ⊢
    rw [List.foldr_cons]
    exact insertDesc_pairwise n _ ih

theorem selectLoop_none_of_short (target : Nat) :
    ∀ (l acc : List StoredNote) (total : Nat),
      total + (l.map (·.assets)).sum < target →
      selectLoop target acc total l = none := by
  intro l
  induction l with
  | nil => intro acc total _; rfl
  | cons n rest ih =>
    intro acc total h
    unfold selectLoop
    simp only [List.map_cons, List.sum_cons] at h
    rw [if_neg (by omega)]
    exact ih _ _ (by omega)

theorem selectLoop_spec (target : Nat) :
    ∀ (l acc : List StoredNote) (total : Nat) (sel : List StoredNote),
      selectLoop target acc total l = some sel →
      ∃ k, 0 < k ∧ k ≤ l.length ∧ sel = acc ++ l.take k ∧
        target ≤ total + ((l.take k).map (·.assets)).sum ∧
        ∀ j, 0 < j → j < k → total + ((l.take j).map (·.assets)).sum < target := by
  intro l
  induction l with
  | nil => intro acc total sel h; exact absurd h (by simp [selectLoop])
  | cons n rest ih =>
    intro acc total sel h
    unfold selectLoop at h
    by_cases hge : total + n.assets ≥ target
    · rw [if_pos hge] at h
      refine ⟨1, Nat.one_pos, by simp, ?_, ?_, ?_⟩
      · simpa using h.symm
      · simpa using hge
      · intro j hj hj1; omega
    · rw [if_neg hge] at h
      obtain ⟨k, hk0, hklen, hsel, htarget, hmin⟩ := ih (acc ++ [n]) (total + n.assets) sel h
      refine ⟨k + 1, Nat.succ_pos k, by simpa using hklen, ?_, ?_, ?_⟩
      · rw [hsel, List.take_cons (Nat.succ_pos k)]
        simp
      · rw [List.take_cons (Nat.succ_pos k)]
        simp only [List.map_cons, List.sum_cons, Nat.succ_sub_one]
        omega
      · intro j hj0 hjk
        match j, hj0 with
        | 1, _ =>
          simpa using by omega
        | j + 2, _ =>
          have := hmin (j + 1) (Nat.succ_pos j) (by omega)
          rw [List.take_cons (by omega)]
          simp only [List.map_cons, List.sum_cons,
            show j + 2 - 1 = j + 1 from rfl]
          omega

/-- The two notes of spec Scenario B. -/
def scenarioNote (i : String) (a : Nat) : StoredNote :=
  { noteId := i
    accountAddress := "addr1"
    sourceHash := ""
    originPage := 0
    assets := a
    nameFirst := i
    nameLast := i
    noteDataHashBase58 := ""
    state := NoteState.available }

/-- C7: the selector sorts candidates by descending amount (stably) and
returns the greedy prefix — the first nonempty prefix of the sorted
candidates whose running total meets the target; when the total of all
notes is below the target it returns `none` (insufficient funds); and on
available notes [10, 90] with target 60 it selects exactly [90]. -/
theorem selectNotesForAmount_spec (notes : List StoredNote) (target : Nat) :
    (((notes.map (·.assets)).sum < target → selectNotesForAmount notes target = none) ∧
      (∀ sel, selectNotesForAmount notes target = some sel →
        ∃ k, 0 < k ∧ sel = (sortNotesDesc notes).take k ∧
          target ≤ (sel.map (·.assets)).sum ∧
          ∀ j, 0 < j → j < k →
            (((sortNotesDesc notes).take j).map (·.assets)).sum < target)) ∧
    (sortNotesDesc notes).Perm notes ∧
    (sortNotesDesc notes).Pairwise (fun a b => b.assets ≤ a.assets) ∧
    selectNotesForAmount [scenarioNote "n10" 10, scenarioNote "n90" 90] 60 =
      some [scenarioNote "n90" 90] := by
  refine ⟨⟨?_, ?_⟩, sortNotesDesc_perm notes, sortNotesDesc_sorted notes, by decide⟩
  · intro h
    unfold selectNotesForAmount
    refine selectLoop_none_of_short target _ _ _ ?_
    have : ((sortNotesDesc notes).map (·.assets)).sum = ((notes.map (·.assets)).sum) :=
      ((sortNotesDesc_perm notes).map (·.assets)).sum_eq
    omega
  · intro sel hsel
    obtain ⟨k, hk0, _, hshape, htarget, hmin⟩ :=
      selectLoop_spec target (sortNotesDesc notes) [] 0 sel hsel
    refine ⟨k, hk0, by simpa using hshape, ?_, ?_⟩
    · have : sel = (sortNotesDesc notes).take k := by simpa using hshape
      rw [this]
      simpa using htarget
    · intro j hj0 hjk
      have := hmin j hj0 hjk
      omega

/-- Witness for C7 at a concrete input: with notes [10, 90] and target
150, the total 100 falls short and the selector reports insufficient
funds. -/
theorem selectNotesForAmount_spec_witness :
    selectNotesForAmount [scenarioNote "n10" 10, scenarioNote "n90" 90] 150 = none := by
  exact (selectNotesForAmount_spec [scenarioNote "n10" 10, scenarioNote "n90" 90]
    150).1.1 (by decide)

/-! ## C1: note locking -/

theorem markLoop_forall2 (noteIds : List String) (txId : String) :
    ∀ l : List StoredNote,
      List.Forall₂ (fun o r => r = o ∨
          (o.state = NoteState.available ∧ o.noteId ∈ noteIds ∧ r = lockNote txId o))
        l (markNotesInFlightLoop noteIds txId l).1 := by
  intro l
  induction l with
  | nil => exact List.Forall₂.nil
  | cons n rest ih =>
    unfold markNotesInFlightLoop
    by_cases hmem : n.noteId ∈ noteIds
    · rw [if_pos hmem]
      by_cases hav : n.state ≠ NoteState.available
      · rw [if_pos hav]
        exact List.Forall₂.cons (Or.inl rfl)
          (List.forall₂_same.mpr (fun x _ => Or.inl rfl))
      · rw [if_neg hav]
        push_neg at hav
        exact List.Forall₂.cons (Or.inr ⟨hav, hmem, rfl⟩) ih
    · rw [if_neg hmem]
      exact List.Forall₂.cons (Or.inl rfl) ih

theorem markLoop_no_throw (noteIds : List String) (txId : String) :
    ∀ l : List StoredNote, (markNotesInFlightLoop noteIds txId l).2.2 = false →
      (markNotesInFlightLoop noteIds txId l).1 =
        l.map (fun n => if n.noteId ∈ noteIds then lockNote txId n else n) ∧
      (markNotesInFlightLoop noteIds txId l).2.1 =
        (l.filter (fun n => decide (n.noteId ∈ noteIds))).length := by
  intro l
  induction l with
  | nil => intro _; exact ⟨rfl, rfl⟩
  | cons n rest ih =>
    intro ht
    unfold markNotesInFlightLoop at ht ⊢
    by_cases hmem : n.noteId ∈ noteIds
    · rw [if_pos hmem] at ht ⊢
      by_cases hav : n.state ≠ NoteState.available
      · rw [if_pos hav] at ht
        exact absurd ht (by simp)
      · rw [if_neg hav] at ht ⊢
        obtain ⟨h1, h2⟩ := ih ht
        refine ⟨?_, ?_⟩
        · simp only [List.map_cons, if_pos hmem]
          exact congrArg _ h1
        · simp only [List.filter_cons, decide_eq_true hmem, List.length_cons]
          exact congrArg (· + 1) h2
    · rw [if_neg hmem] at ht ⊢
      obtain ⟨h1, h2⟩ := ih ht
      refine ⟨?_, ?_⟩
      · simp only [List.map_cons, if_neg hmem]
        exact congrArg _ h1
      · simp only [List.filter_cons, decide_eq_false hmem]
        exact h2

theorem markNotesInFlight_eq (s : AccountState) (noteIds : List String) (txId : String) :
    markNotesInFlight s noteIds txId =
      (if (markNotesInFlightLoop noteIds txId s.notes).2.2 = true then
        (true, { s with notes := (markNotesInFlightLoop noteIds txId s.notes).1 })
      else if (markNotesInFlightLoop noteIds txId s.notes).2.1 ≠ noteIds.length then
        (true, { s with notes := (markNotesInFlightLoop noteIds txId s.notes).1 })
      else
        (false,
          { s with
            notes := (markNotesInFlightLoop noteIds txId s.notes).1
            version := s.version + 1 })) := rfl

theorem markLoop_throw_of_bad (noteIds : List String) (txId : String) :
    ∀ l : List StoredNote,
      (∃ n ∈ l, n.noteId ∈ noteIds ∧ n.state ≠ NoteState.available) →
      (markNotesInFlightLoop noteIds txId l).2.2 = true := by
  intro l
  induction l with
  | nil => rintro ⟨n, hn, _⟩; exact absurd hn (List.not_mem_nil n)
  | cons m rest ih =>
    rintro ⟨n, hn, hmem, hbad⟩
    unfold markNotesInFlightLoop
    rcases List.mem_cons.mp hn with rfl | hn
    · rw [if_pos hmem, if_pos hbad]
    · by_cases hm : m.noteId ∈ noteIds
      · rw [if_pos hm]
        by_cases hmav : m.state ≠ NoteState.available
        · rw [if_pos hmav]
        · rw [if_neg hmav]
          exact ih ⟨n, hn, hmem, hbad⟩
      · rw [if_neg hm]
        exact ih ⟨n, hn, hmem, hbad⟩

/-- C1 (amended): if any target note is not `available`, or (under the
documented unique-id invariants) a requested id matches no note, the
whole batch fails — the method throws, no success is reported, and the
version counter is not bumped; however notes already scanned before the
failure point stay transitioned, so a partial lock can remain in memory
(each note is either unchanged or an available target now `in_flight`
tagged with the transaction id). On success every target note is
`in_flight` tagged with the transaction id, every other note is
untouched, and the version is bumped. -/
theorem markNotesInFlight_amended (s : AccountState) (noteIds : List String)
    (txId : String) :
    ((∃ n ∈ s.notes, n.noteId ∈ noteIds ∧ n.state ≠ NoteState.available) →
      (markNotesInFlight s noteIds txId).1 = true) ∧
    (noteIds.Nodup → (s.notes.map (·.noteId)).Nodup →
      (∃ i ∈ noteIds, ∀ n ∈ s.notes, n.noteId ≠ i) →
      (markNotesInFlight s noteIds txId).1 = true) ∧
    ((markNotesInFlight s noteIds txId).1 = true →
      (markNotesInFlight s noteIds txId).2.version = s.version ∧
      (markNotesInFlight s noteIds txId).2.txs = s.txs ∧
      List.Forall₂ (fun o r => r = o ∨
          (o.state = NoteState.available ∧ o.noteId ∈ noteIds ∧ r = lockNote txId o))
        s.notes (markNotesInFlight s noteIds txId).2.notes) ∧
    ((markNotesInFlight s noteIds txId).1 = false →
      (markNotesInFlight s noteIds txId).2.notes =
        s.notes.map (fun n => if n.noteId ∈ noteIds then lockNote txId n else n) ∧
      (markNotesInFlight s noteIds txId).2.version = s.version + 1 ∧
      (markNotesInFlight s noteIds txId).2.txs = s.txs) := by
  refine ⟨?_, ?_, ?_, ?_⟩
  · intro hbad
    have := markLoop_throw_of_bad noteIds txId s.notes hbad
    rw [markNotesInFlight_eq, if_pos this]
  · intro hids hnotes ⟨i, hi, habsent⟩
    by_contra hfalse
    rw [Bool.not_eq_true] at hfalse
    rw [markNotesInFlight_eq] at hfalse
    have hthrew : (markNotesInFlightLoop noteIds txId s.notes).2.2 = false := by
      by_contra ht
      rw [Bool.not_eq_false] at ht
      rw [if_pos ht] at hfalse
      simp at hfalse
    have hcount : (markNotesInFlightLoop noteIds txId s.notes).2.1 = noteIds.length := by
      by_contra hc
      rw [if_neg (by rw [hthrew]; simp), if_pos hc] at hfalse
      simp at hfalse
    have hfilter := (markLoop_no_throw noteIds txId s.notes hthrew).2
    -- the matched notes have distinct ids, all in `noteIds` and ≠ i
    set matched := s.notes.filter (fun n => decide (n.noteId ∈ noteIds)) with hm
    have hsub : (matched.map (·.noteId)).Sublist (s.notes.map (·.noteId)) :=
      (List.filter_sublist s.notes).map _
    have hnodup : (matched.map (·.noteId)).Nodup := hnotes.sublist hsub
    have hsubset : (matched.map (·.noteId)) ⊆ noteIds.erase i := by
      intro x hx
      obtain ⟨n, hn, rfl⟩ := List.mem_map.mp hx
      have hmemIds : n.noteId ∈ noteIds := by
        have := List.of_mem_filter hn
        simpa using this
      have hne : n.noteId ≠ i := habsent n (List.mem_of_mem_filter hn)
      exact (List.mem_erase_of_ne hne).mpr hmemIds
    have hlen : (matched.map (·.noteId)).length ≤ (noteIds.erase i).length :=
      (hnodup.subperm hsubset).length_le
    rw [List.length_map, List.length_erase_of_mem hi] at hlen
    have hipos : 0 < noteIds.length := List.length_pos.mpr (List.ne_nil_of_mem hi)
    rw [hfilter] at hcount
    omega
  · intro hthrew
    rw [markNotesInFlight_eq] at hthrew ⊢
    by_cases ht : (markNotesInFlightLoop noteIds txId s.notes).2.2 = true
    · rw [if_pos ht]
      exact ⟨rfl, rfl, markLoop_forall2 noteIds txId s.notes⟩
    · rw [Bool.not_eq_true] at ht
      rw [if_neg (by rw [ht]; simp)] at hthrew ⊢
      by_cases hc : (markNotesInFlightLoop noteIds txId s.notes).2.1 = noteIds.length
      · rw [if_neg (by simpa using hc)] at hthrew
        simp at hthrew
      · rw [if_pos hc]
        exact ⟨rfl, rfl, markLoop_forall2 noteIds txId s.notes⟩
  · intro hok
    rw [markNotesInFlight_eq] at hok ⊢
    by_cases ht : (markNotesInFlightLoop noteIds txId s.notes).2.2 = true
    · rw [if_pos ht] at hok
      simp at hok
    · rw [Bool.not_eq_true] at ht
      rw [if_neg (by rw [ht]; simp)] at hok ⊢
      by_cases hc : (markNotesInFlightLoop noteIds txId s.notes).2.1 = noteIds.length
      · rw [if_neg (by simpa using hc)]
        exact ⟨(markLoop_no_throw noteIds txId s.notes ht).1, rfl, rfl⟩
      · rw [if_pos hc] at hok
        simp at hok

/-- C1 counterexample: locking the batch ["a", "b"] where "a" is
`available` but "b" is `spent` throws (the batch fails), yet "a" has
already been flipped to `in_flight` with `pendingTxId` set — the ledger
is left with a partial lock, contradicting "no note's state or
pendingTxId is changed". -/
theorem markNotesInFlight_counterexample :
    (markNotesInFlight
        ⟨[scenarioNote "a" 1, { scenarioNote "b" 2 with state := NoteState.spent }],
          0, []⟩ ["a", "b"] "tx1").1 = true ∧
    (markNotesInFlight
        ⟨[scenarioNote "a" 1, { scenarioNote "b" 2 with state := NoteState.spent }],
          0, []⟩ ["a", "b"] "tx1").2.notes ≠
      [scenarioNote "a" 1, { scenarioNote "b" 2 with state := NoteState.spent }] ∧
    ∃ n ∈ (markNotesInFlight
        ⟨[scenarioNote "a" 1, { scenarioNote "b" 2 with state := NoteState.spent }],
          0, []⟩ ["a", "b"] "tx1").2.notes,
      n.noteId = "a" ∧ n.state = NoteState.in_flight ∧ n.pendingTxId = some "tx1" := by
  decide

/-- Witness for the amended C1 at a concrete input: a batch containing a
spent note throws. -/
theorem markNotesInFlight_amended_witness :
    (markNotesInFlight ⟨[{ scenarioNote "b" 2 with state := NoteState.spent }], 0, []⟩
      ["b"] "tx1").1 = true :=
  (markNotesInFlight_amended
      ⟨[{ scenarioNote "b" 2 with state := NoteState.spent }], 0, []⟩ ["b"] "tx1").1
    ⟨{ scenarioNote "b" 2 with state := NoteState.spent }, by decide, by decide, by decide⟩

/-! ## C2: the pendingTxId/in_flight invariant -/

/-- One direction of the spec §3 note invariant: an `in_flight` note
carries a `pendingTxId`. -/
def NotePI (n : StoredNote) : Prop :=
  n.state = NoteState.in_flight → n.pendingTxId ≠ none

/-- The invariant over a whole account ledger. -/
def LedgerPI (s : AccountState) : Prop := ∀ n ∈ s.notes, NotePI n

/-- The note-ledger operations named by the claim (upsert, lock,
release, mark-spent, sync), each applied to the per-account state. -/
inductive LedgerOp where
  | upsert (newNotes : List StoredNote)
  | lock (noteIds : List String) (txId : String)
  | release (noteIds : List String)
  | markSpent (noteIds : List String)
  | sync (accountAddress : String) (chain : List FetchedUTXO) (now : Int)
      (freshIds : List String)

/-- Apply one ledger operation. -/
def applyLedgerOp (s : AccountState) : LedgerOp → AccountState
  | .upsert newNotes => saveNotes s newNotes
  | .lock noteIds txId => (markNotesInFlight s noteIds txId).2
  | .release noteIds => releaseInFlightNotes s noteIds
  | .markSpent noteIds => markNotesSpent s noteIds
  | .sync accountAddress chain now freshIds =>
      (syncAccountUTXOs s accountAddress chain now freshIds).1

/-- Batches handed to the upsert operation must themselves satisfy the
invariant (the sync engine only ever upserts freshly built `available`
notes, which do). -/
def LedgerOpOK : LedgerOp → Prop
  | .upsert newNotes => ∀ n ∈ newNotes, NotePI n
  | _ => True

theorem forall2_mem_right {α β : Type} {R : α → β → Prop} :
    ∀ {l : List α} {l' : List β}, List.Forall₂ R l l' → ∀ r ∈ l', ∃ o ∈ l, R o r := by
  intro l l' h
  induction h with
  | nil => intro r hr; exact absurd hr (List.not_mem_nil r)
  | cons hR _ ih =>
    intro r hr
    rcases List.mem_cons.mp hr with rfl | hr
    · exact ⟨_, List.mem_cons_self _ _, hR⟩
    · obtain ⟨o, ho, hR'⟩ := ih r hr
      exact ⟨o, List.mem_cons_of_mem _ ho, hR'⟩

theorem setAssoc_mem {m : List (String × StoredNote)} {k : String} {v : StoredNote}
    {p : String × StoredNote} (hp : p ∈ setAssoc m k v) : p ∈ m ∨ p = (k, v) := by
  unfold setAssoc at hp
  by_cases h : m.any (fun q => q.1 = k)
  · rw [if_pos h] at hp
    obtain ⟨q, hq, hpq⟩ := List.mem_map.mp hp
    by_cases hqk : q.1 = k
    · rw [if_pos hqk] at hpq
      exact Or.inr hpq.symm
    · rw [if_neg hqk] at hpq
      exact Or.inl (hpq ▸ hq)
  · rw [if_neg h] at hp
    rcases List.mem_append.mp hp with hp | hp
    · exact Or.inl hp
    · exact Or.inr (List.mem_singleton.mp hp)

theorem upsertNotes_mem {a b : List StoredNote} {n : StoredNote}
    (hn : n ∈ upsertNotes a b) : n ∈ a ∨ n ∈ b := by
  unfold upsertNotes at hn
  obtain ⟨p, hp, hpn⟩ := List.mem_map.mp hn
  have key : ∀ (l : List StoredNote) (init : List (String × StoredNote)),
      (∀ q ∈ init, q.2 ∈ a ++ b) → (∀ x ∈ l, x ∈ a ++ b) →
      ∀ q ∈ l.foldl (fun m x => setAssoc m x.noteId x) init, q.2 ∈ a ++ b := by
    intro l
    induction l with
    | nil => intro init hinit _ q hq; exact hinit q hq
    | cons x xs ih =>
      intro init hinit hl q hq
      refine ih (setAssoc init x.noteId x) ?_
        (fun y hy => hl y (List.mem_cons_of_mem x hy)) q hq
      intro r hr
      rcases setAssoc_mem hr with hr | hr
      · exact hinit r hr
      · rw [hr]
        exact hl x (List.mem_cons_self x xs)
  have := key (a ++ b) [] (by intro q hq; exact absurd hq (List.not_mem_nil q))
    (fun x hx => hx) p hp
  rw [hpn] at this
  exact List.mem_append.mp this

theorem saveNotes_PI {s : AccountState} {newNotes : List StoredNote}
    (hs : LedgerPI s) (hnew : ∀ n ∈ newNotes, NotePI n) :
    LedgerPI (saveNotes s newNotes) := by
  intro n hn
  rcases upsertNotes_mem hn with h | h
  · exact hs n h
  · exact hnew n h

theorem markNotesSpent_PI {s : AccountState} {noteIds : List String}
    (hs : LedgerPI s) : LedgerPI (markNotesSpent s noteIds) := by
  intro n hn
  obtain ⟨m, hm, hmn⟩ := List.mem_map.mp hn
  by_cases h : m.noteId ∈ noteIds
  · rw [if_pos h] at hmn
    intro hst
    rw [← hmn] at hst
    exact absurd hst (by simp)
  · rw [if_neg h] at hmn
    exact hmn ▸ hs m hm

theorem releaseInFlightNotes_PI {s : AccountState} {noteIds : List String}
    (hs : LedgerPI s) : LedgerPI (releaseInFlightNotes s noteIds) := by
  intro n hn
  obtain ⟨m, hm, hmn⟩ := List.mem_map.mp hn
  by_cases h : m.noteId ∈ noteIds ∧ m.state = NoteState.in_flight
  · rw [if_pos h] at hmn
    intro hst
    rw [← hmn] at hst
    exact absurd hst (by simp)
  · rw [if_neg h] at hmn
    exact hmn ▸ hs m hm

theorem markNotesInFlight_PI {s : AccountState} {noteIds : List String} {txId : String}
    (hs : LedgerPI s) : LedgerPI (markNotesInFlight s noteIds txId).2 := by
  intro n hn
  have hf2 : List.Forall₂ (fun o r => r = o ∨
      (o.state = NoteState.available ∧ o.noteId ∈ noteIds ∧ r = lockNote txId o))
      s.notes (markNotesInFlight s noteIds txId).2.notes := by
    rw [markNotesInFlight_eq]
    by_cases ht : (markNotesInFlightLoop noteIds txId s.notes).2.2 = true
    · rw [if_pos ht]
      exact markLoop_forall2 noteIds txId s.notes
    · rw [if_neg ht]
      by_cases hc : (markNotesInFlightLoop noteIds txId s.notes).2.1 ≠ noteIds.length
      · rw [if_pos hc]
        exact markLoop_forall2 noteIds txId s.notes
      · rw [if_neg hc]
        exact markLoop_forall2 noteIds txId s.notes
  obtain ⟨o, ho, hR⟩ := forall2_mem_right hf2 n hn
  rcases hR with h | ⟨_, _, h⟩
  · exact h ▸ hs o ho
  · rw [h]
    intro _
    simp [lockNote]

theorem removeSpentNotes_PI {s : AccountState} {now maxAgeMs : Int}
    (hs : LedgerPI s) : LedgerPI (removeSpentNotes s now maxAgeMs) := by
  unfold removeSpentNotes
  by_cases h : (s.notes.filter (fun n =>
      n.state ≠ NoteState.spent ∨ (n.discoveredAt ≠ 0 ∧ n.discoveredAt > now - maxAgeMs))).length
      < s.notes.length
  · rw [if_pos h]
    intro n hn
    exact hs n (List.mem_of_mem_filter hn)
  · rw [if_neg h]
    intro n hn
    exact hs n (List.mem_of_mem_filter hn)

theorem updateWalletTransaction_notes (s : AccountState) (txId : String)
    (u : TxUpdate) (now : Int) :
    (updateWalletTransaction s txId u now).notes = s.notes ∧
    (updateWalletTransaction s txId u now).version = s.version := by
  unfold updateWalletTransaction
  cases updateFirstTx txId u now s.txs with
  | none => exact ⟨rfl, rfl⟩
  | some l => exact ⟨rfl, rfl⟩

theorem addWalletTransaction_notes (s : AccountState) (tx : WalletTransaction) :
    (addWalletTransaction s tx).notes = s.notes ∧
    (addWalletTransaction s tx).version = s.version := by
  unfold addWalletTransaction
  by_cases h : s.txs.any (fun t => decide (t.id = tx.id))
  · rw [if_pos h]
    exact ⟨rfl, rfl⟩
  · rw [if_neg h]
    exact ⟨rfl, rfl⟩

/-- The stored note built by one iteration of sync step 5 (proof-side
characterization of `processNewUTXO`'s note output). -/
def noteFor (accountAddress : String) (isChangeMap : List (String × String))
    (now : Int) (u : FetchedUTXO) : StoredNote :=
  match classifyNewUTXO u isChangeMap with
  | (true, some txId) =>
    { fetchedToStoredNote u accountAddress NoteState.available (some true) now with
      pendingTxId := some txId }
  | (isChange, _) =>
    fetchedToStoredNote u accountAddress NoteState.available (some isChange) now

theorem processNewUTXO_step (accountAddress : String)
    (isChangeMap : List (String × String)) (now : Int)
    (acc : AccountState × List StoredNote × Nat × Nat × List String)
    (u : FetchedUTXO) :
    (processNewUTXO accountAddress isChangeMap now acc u).1.notes = acc.1.notes ∧
    (processNewUTXO accountAddress isChangeMap now acc u).1.version = acc.1.version ∧
    (processNewUTXO accountAddress isChangeMap now acc u).2.1 =
      acc.2.1 ++ [noteFor accountAddress isChangeMap now u] := by
  rcases h : classifyNewUTXO u isChangeMap with ⟨b, o⟩
  cases b <;> cases o <;>
    simp [processNewUTXO, noteFor, h, addWalletTransaction_notes, fetchedToStoredNote]

theorem noteFor_state (accountAddress : String) (isChangeMap : List (String × String))
    (now : Int) (u : FetchedUTXO) :
    (noteFor accountAddress isChangeMap now u).state = NoteState.available ∧
    (noteFor accountAddress isChangeMap now u).noteId = u.noteId ∧
    (noteFor accountAddress isChangeMap now u).discoveredAt = now := by
  rcases h : classifyNewUTXO u isChangeMap with ⟨b, o⟩
  cases b <;> cases o <;> simp [noteFor, h, fetchedToStoredNote]

theorem processNew_fold_notes (accountAddress : String)
    (isChangeMap : List (String × String)) (now : Int) :
    ∀ (us : List FetchedUTXO)
      (acc : AccountState × List StoredNote × Nat × Nat × List String),
      (us.foldl (processNewUTXO accountAddress isChangeMap now) acc).1.notes =
        acc.1.notes ∧
      (us.foldl (processNewUTXO accountAddress isChangeMap now) acc).1.version =
        acc.1.version ∧
      (us.foldl (processNewUTXO accountAddress isChangeMap now) acc).2.1 =
        acc.2.1 ++ us.map (noteFor accountAddress isChangeMap now) := by
  intro us
  induction us with
  | nil => intro acc; exact ⟨rfl, rfl, by simp⟩
  | cons u rest ih =>
    intro acc
    rw [List.foldl_cons]
    obtain ⟨h1, h2, h3⟩ := ih (processNewUTXO accountAddress isChangeMap now acc u)
    obtain ⟨g1, g2, g3⟩ := processNewUTXO_step accountAddress isChangeMap now acc u
    refine ⟨h1.trans g1, h2.trans g2, ?_⟩
    rw [h3, g3]
    simp

theorem syncNewStage_eq (s : AccountState) (accountAddress : String)
    (diff : UTXODiff) (now : Int) (freshIds : List String) :
    syncNewStage s accountAddress diff now freshIds =
      ((if (diff.newUTXOs.foldl (processNewUTXO accountAddress diff.isChangeMap now)
            (s, [], 0, 0, freshIds)).2.1.isEmpty then
          (diff.newUTXOs.foldl (processNewUTXO accountAddress diff.isChangeMap now)
            (s, [], 0, 0, freshIds)).1
        else
          saveNotes
            (diff.newUTXOs.foldl (processNewUTXO accountAddress diff.isChangeMap now)
              (s, [], 0, 0, freshIds)).1
            (diff.newUTXOs.foldl (processNewUTXO accountAddress diff.isChangeMap now)
              (s, [], 0, 0, freshIds)).2.1),
        (diff.newUTXOs.foldl (processNewUTXO accountAddress diff.isChangeMap now)
          (s, [], 0, 0, freshIds)).2.2.1,
        (diff.newUTXOs.foldl (processNewUTXO accountAddress diff.isChangeMap now)
          (s, [], 0, 0, freshIds)).2.2.2.1) := rfl

theorem syncPrevSpentStage_eq (s : AccountState) (pendingTxs : List WalletTransaction)
    (diff : UTXODiff) (now : Int) :
    syncPrevSpentStage s pendingTxs diff now =
      (if (pendingTxs.filter (fun tx =>
            !(areTransactionInputsSpent tx diff.nowSpent))).isEmpty then (s, 0)
      else
        (pendingTxs.filter (fun tx =>
            !(areTransactionInputsSpent tx diff.nowSpent))).foldl
          (fun (acc : AccountState × Nat) tx =>
            match tx.inputNoteIds with
            | none => acc
            | some [] => acc
            | some ids =>
              if ids.all (fun i =>
                  (((s.notes.filter (fun n => n.state == NoteState.spent)).map
                    (·.noteId))).contains i) then
                (updateWalletTransaction acc.1 tx.id
                  { status := some TxStatus.confirmed } now, acc.2 + 1)
              else acc) (s, 0)) := rfl

theorem syncExpiryStage_eq (s : AccountState) (now : Int) :
    syncExpiryStage s now =
      ((findExpiredTransactions s.txs TX_EXPIRY_MS now).foldl
        (fun acc tx =>
          updateWalletTransaction
            (match tx.inputNoteIds with
              | some (i :: rest) => releaseInFlightNotes acc (i :: rest)
              | _ => acc) tx.id { status := some TxStatus.expired } now) s,
        (findExpiredTransactions s.txs TX_EXPIRY_MS now).length) := rfl

theorem syncSpentStage_PI {s : AccountState} {diff : UTXODiff}
    {pendingTxs : List WalletTransaction} {now : Int}
    (hs : LedgerPI s) : LedgerPI (syncSpentStage s diff pendingTxs now) := by
  unfold syncSpentStage
  by_cases h : diff.nowSpent.isEmpty
  · rw [if_pos h]
    exact hs
  · rw [if_neg h]
    refine foldl_invariant LedgerPI _ pendingTxs _ (markNotesSpent_PI hs) ?_
    intro s' tx _ hPI n hn
    split at hn
    · rw [(updateWalletTransaction_notes s' tx.id _ now).1] at hn
      exact hPI n hn
    · exact hPI n hn

theorem syncNewStage_PI {s : AccountState} {accountAddress : String} {diff : UTXODiff}
    {now : Int} {freshIds : List String}
    (hs : LedgerPI s) : LedgerPI (syncNewStage s accountAddress diff now freshIds).1 := by
  rw [syncNewStage_eq]
  obtain ⟨h1, _, h3⟩ := processNew_fold_notes accountAddress diff.isChangeMap now
    diff.newUTXOs (s, [], 0, 0, freshIds)
  by_cases h : (diff.newUTXOs.foldl
      (processNewUTXO accountAddress diff.isChangeMap now)
      (s, [], 0, 0, freshIds)).2.1.isEmpty
  · rw [if_pos h]
    intro n hn
    rw [h1] at hn
    exact hs n hn
  · rw [if_neg h]
    refine saveNotes_PI (fun n hn => ?_) ?_
    · rw [h1] at hn
      exact hs n hn
    · intro n hn
      rw [h3] at hn
      simp only [List.nil_append] at hn
      obtain ⟨u, _, rfl⟩ := List.mem_map.mp hn
      intro hst
      simp [(noteFor_state accountAddress diff.isChangeMap now u).1] at hst

theorem syncPrevSpentStage_PI {s : AccountState} {pendingTxs : List WalletTransaction}
    {diff : UTXODiff} {now : Int}
    (hs : LedgerPI s) : LedgerPI (syncPrevSpentStage s pendingTxs diff now).1 := by
  rw [syncPrevSpentStage_eq]
  by_cases h : (pendingTxs.filter (fun tx =>
      !(areTransactionInputsSpent tx diff.nowSpent))).isEmpty
  · rw [if_pos h]
    exact hs
  · rw [if_neg h]
    refine foldl_invariant (fun (acc : AccountState × Nat) => LedgerPI acc.1) _ _ _ hs ?_
    intro acc tx _ hPI
    rcases htx : tx.inputNoteIds with _ | ⟨_ | ⟨i, ids⟩⟩ <;> simp only [htx]
    · exact hPI
    · exact hPI
    · split
      · intro n hn
        rw [(updateWalletTransaction_notes acc.1 tx.id _ now).1] at hn
        exact hPI n hn
      · exact hPI

theorem syncExpiryStage_PI {s : AccountState} {now : Int}
    (hs : LedgerPI s) : LedgerPI (syncExpiryStage s now).1 := by
  rw [syncExpiryStage_eq]
  refine foldl_invariant LedgerPI _ (findExpiredTransactions s.txs TX_EXPIRY_MS now)
    s hs ?_
  intro s' tx _ hPI n hn
  rw [(updateWalletTransaction_notes _ tx.id _ now).1] at hn
  rcases htx : tx.inputNoteIds with _ | ⟨_ | ⟨i, ids⟩⟩ <;> simp only [htx] at hn
  · exact hPI n hn
  · exact hPI n hn
  · exact releaseInFlightNotes_PI hPI n hn

theorem syncAccountUTXOs_PI {s : AccountState} {accountAddress : String}
    {chain : List FetchedUTXO} {now : Int} {freshIds : List String}
    (hs : LedgerPI s) :
    LedgerPI (syncAccountUTXOs s accountAddress chain now freshIds).1 := by
  unfold syncAccountUTXOs
  exact removeSpentNotes_PI (syncExpiryStage_PI (syncPrevSpentStage_PI
    (syncNewStage_PI (syncSpentStage_PI hs))))

/-- C2 counterexample: starting from a ledger holding a single
`available` note, the operation sequence [lock, mark-spent] leaves the
note in state `spent` with `pendingTxId` still set (mark-spent does not
clear the tag) — refuting "pendingTxId is set iff state is
`in_flight`" after a sequence of ledger operations. -/
theorem pendingTxId_iff_counterexample :
    ∃ n ∈ (([LedgerOp.lock ["n1"] "t1", LedgerOp.markSpent ["n1"]].foldl
        applyLedgerOp ⟨[scenarioNote "n1" 5], 0, []⟩).notes),
      n.pendingTxId = some "t1" ∧ n.state ≠ NoteState.in_flight := by
  decide

/-- C2 (amended): only the forward direction of the invariant holds.
For every sequence of ledger operations (upsert, lock, release,
mark-spent, sync) whose upserted batches themselves satisfy it, every
note with state `in_flight` has `pendingTxId` set. The reverse
direction is false in the code: mark-spent leaves `pendingTxId` on
notes it marks `spent`, and reconciliation stores change notes as
`available` with `pendingTxId` set as an attribution tag. -/
theorem pendingTxId_in_flight_invariant (s : AccountState) (ops : List LedgerOp)
    (hs : LedgerPI s) (hops : ∀ op ∈ ops, LedgerOpOK op) :
    LedgerPI (ops.foldl applyLedgerOp s) := by
  refine foldl_invariant LedgerPI applyLedgerOp ops s hs ?_
  intro s' op hop hPI
  cases op with
  | upsert newNotes => exact saveNotes_PI hPI (hops _ hop)
  | lock noteIds txId => exact markNotesInFlight_PI hPI
  | release noteIds => exact releaseInFlightNotes_PI hPI
  | markSpent noteIds => exact markNotesSpent_PI hPI
  | sync accountAddress chain now freshIds => exact syncAccountUTXOs_PI hPI

/-- Witness for the amended C2 at a concrete input: after lock followed
by release, the single note satisfies the forward invariant. -/
theorem pendingTxId_in_flight_invariant_witness :
    LedgerPI ([LedgerOp.lock ["n1"] "t1", LedgerOp.release ["n1"]].foldl
      applyLedgerOp ⟨[scenarioNote "n1" 5], 0, []⟩) := by
  exact pendingTxId_in_flight_invariant ⟨[scenarioNote "n1" 5], 0, []⟩
    [LedgerOp.lock ["n1"] "t1", LedgerOp.release ["n1"]]
    (by intro n hn; rcases List.mem_singleton.mp hn with rfl; intro h
        simp [scenarioNote] at h)
    (by intro op hop; rcases List.mem_cons.mp hop with rfl | hop
        · trivial
        · rcases List.mem_singleton.mp hop with rfl; trivial)

/-! ## C3: send failure unwinding -/

theorem markNotesInFlight_success (s : AccountState) (noteIds : List String)
    (txId : String) (h : (markNotesInFlight s noteIds txId).1 = false) :
    (markNotesInFlight s noteIds txId).2.notes =
      s.notes.map (fun n => if n.noteId ∈ noteIds then lockNote txId n else n) ∧
    (markNotesInFlight s noteIds txId).2.version = s.version + 1 ∧
    (markNotesInFlight s noteIds txId).2.txs = s.txs := by
  rw [markNotesInFlight_eq] at h ⊢
  by_cases ht : (markNotesInFlightLoop noteIds txId s.notes).2.2 = true
  · rw [if_pos ht] at h
    simp at h
  · have ht' : (markNotesInFlightLoop noteIds txId s.notes).2.2 = false := by
      revert ht
      cases (markNotesInFlightLoop noteIds txId s.notes).2.2 <;> simp
    rw [if_neg ht] at h ⊢
    by_cases hc : (markNotesInFlightLoop noteIds txId s.notes).2.1 ≠ noteIds.length
    · rw [if_pos hc] at h
      simp at h
    · rw [if_neg hc]
      exact ⟨(markLoop_no_throw noteIds txId s.notes ht').1, rfl, rfl⟩

theorem forall2_map_self {α β : Type} (f : α → β) (P : α → β → Prop) :
    ∀ l : List α, (∀ x ∈ l, P x (f x)) → List.Forall₂ P l (l.map f) := by
  intro l
  induction l with
  | nil => intro _; exact List.Forall₂.nil
  | cons x xs ih =>
    intro h
    exact List.Forall₂.cons (h x (List.mem_cons_self x xs))
      (ih (fun y hy => h y (List.mem_cons_of_mem x hy)))

theorem sendSelection_ne_nil {availableNotes : List StoredNote} {amount estimatedFee : Nat}
    {sendMax : Bool} {sel : List StoredNote} {ch : Nat}
    (havail : availableNotes ≠ [])
    (hsel : sendSelection availableNotes amount estimatedFee sendMax = some (sel, ch)) :
    sel ≠ [] := by
  unfold sendSelection at hsel
  by_cases hmax : sendMax = true
  · rw [if_pos hmax] at hsel
    injection hsel with h
    injection h with h1 _
    exact h1 ▸ havail
  · rw [if_neg hmax] at hsel
    cases hloop : selectNotesForAmount availableNotes (amount + estimatedFee) with
    | none => rw [hloop] at hsel; exact absurd hsel (by simp)
    | some selected =>
      rw [hloop] at hsel
      injection hsel with h
      injection h with h1 _
      obtain ⟨k, hk0, hklen, hshape, _, _⟩ :=
        selectLoop_spec (amount + estimatedFee) (sortNotesDesc availableNotes) [] 0
          selected hloop
      rw [← h1, hshape]
      simp only [List.nil_append, ne_eq]
      intro hnil
      have := congrArg List.length hnil
      rw [List.length_take] at this
      simp only [List.length_nil] at this
      omega

/-- The `created` transaction record appended by `sendTransactionV2`
step 5 (proof-side name for the record literal in the source). -/
def createdWalletTx (accountAddress walletTxId toAddress : String)
    (selectedNoteIds : List String) (amount estimatedFee expectedChange : Nat)
    (now : Int) : WalletTransaction :=
  { id := walletTxId
    accountAddress := accountAddress
    direction := TxDirection.outgoing
    createdAt := now
    updatedAt := now
    status := TxStatus.created
    inputNoteIds := some selectedNoteIds
    recipient := some toAddress
    amount := amount
    fee := some estimatedFee
    expectedChange := some (if expectedChange > 0 then expectedChange else 0) }

/-- C3: in every send in which the notes were locked and construction
or broadcast then throws, the operation releases exactly the locked
notes back to `available` (with `pendingTxId` cleared) leaving all
other notes untouched, marks the wallet transaction `failed`, and
returns an error carrying the underlying cause. -/
theorem sendTransactionV2_failure (s : AccountState)
    (accountAddress walletTxId toAddress : String) (amount : Nat) (fee : Option Nat)
    (sendMax : Bool) (buildResult : Except String BuildOk)
    (broadcastResult : Except String Unit) (now : Int) (e : String)
    (sel : List StoredNote) (ch : Nat)
    (hfresh : ∀ t ∈ s.txs, t.id ≠ walletTxId)
    (havail : s.notes.filter (fun n => n.state == NoteState.available) ≠ [])
    (hsel : sendSelection (s.notes.filter (fun n => n.state == NoteState.available))
      amount (fee.getD (2 * NOCK_TO_NICKS)) sendMax = some (sel, ch))
    (hlock : (markNotesInFlight s (sel.map (·.noteId)) walletTxId).1 = false)
    (hfail : buildResult = Except.error e ∨
      (∃ b, buildResult = Except.ok b ∧ broadcastResult = Except.error e)) :
    (sendTransactionV2 s accountAddress walletTxId toAddress amount fee sendMax
        buildResult broadcastResult now).1 =
      Except.error ("Transaction failed: " ++ e) ∧
    List.Forall₂ (fun o r =>
        (o.noteId ∈ sel.map (·.noteId) →
          r = { o with state := NoteState.available, pendingTxId := none }) ∧
        (o.noteId ∉ sel.map (·.noteId) → r = o))
      s.notes
      (sendTransactionV2 s accountAddress walletTxId toAddress amount fee sendMax
        buildResult broadcastResult now).2.notes ∧
    (∃ t ∈ (sendTransactionV2 s accountAddress walletTxId toAddress amount fee
        sendMax buildResult broadcastResult now).2.txs,
      t.id = walletTxId ∧ t.status = TxStatus.failed) := by
  have hselne : sel ≠ [] := sendSelection_ne_nil havail hsel
  have hidsne : sel.map (·.noteId) ≠ [] := by
    intro h
    exact hselne (List.map_eq_nil_iff.mp h)
  obtain ⟨hlnotes, hlver, hltxs⟩ :=
    markNotesInFlight_success s (sel.map (·.noteId)) walletTxId hlock
  have hany : ((markNotesInFlight s (sel.map (·.noteId)) walletTxId).2.txs.any
      (fun t => decide (t.id = walletTxId))) = false := by
    rw [hltxs, List.any_eq_false]
    intro t ht
    simpa using hfresh t ht
  have hs2txs : (addWalletTransaction (markNotesInFlight s (sel.map (·.noteId)) walletTxId).2
      (createdWalletTx accountAddress walletTxId toAddress (sel.map (·.noteId)) amount
        (fee.getD (2 * NOCK_TO_NICKS)) ch now)).txs =
      createdWalletTx accountAddress walletTxId toAddress (sel.map (·.noteId)) amount
        (fee.getD (2 * NOCK_TO_NICKS)) ch now ::
        (markNotesInFlight s (sel.map (·.noteId)) walletTxId).2.txs.take 199 := by
    rw [addWalletTransaction, if_neg (by simp [createdWalletTx, hany]),
      List.take_cons (by omega)]
  have hs2notes : (addWalletTransaction (markNotesInFlight s (sel.map (·.noteId)) walletTxId).2
      (createdWalletTx accountAddress walletTxId toAddress (sel.map (·.noteId)) amount
        (fee.getD (2 * NOCK_TO_NICKS)) ch now)).notes =
      (markNotesInFlight s (sel.map (·.noteId)) walletTxId).2.notes :=
    (addWalletTransaction_notes _ _).1
  have hcatch : ∀ s2 : AccountState,
      s2.notes = (markNotesInFlight s (sel.map (·.noteId)) walletTxId).2.notes →
      s2.txs = createdWalletTx accountAddress walletTxId toAddress (sel.map (·.noteId))
          amount (fee.getD (2 * NOCK_TO_NICKS)) ch now ::
          (markNotesInFlight s (sel.map (·.noteId)) walletTxId).2.txs.take 199 →
      (sendCatch s2 (sel.map (·.noteId)) walletTxId e now).1 =
        Except.error ("Transaction failed: " ++ e) ∧
      List.Forall₂ (fun o r =>
          (o.noteId ∈ sel.map (·.noteId) →
            r = { o with state := NoteState.available, pendingTxId := none }) ∧
          (o.noteId ∉ sel.map (·.noteId) → r = o))
        s.notes (sendCatch s2 (sel.map (·.noteId)) walletTxId e now).2.notes ∧
      (∃ t ∈ (sendCatch s2 (sel.map (·.noteId)) walletTxId e now).2.txs,
        t.id = walletTxId ∧ t.status = TxStatus.failed) := by
    intro s2 hnotes2 htxs2
    unfold sendCatch
    rw [if_neg (by simpa [List.isEmpty_iff] using hidsne)]
    refine ⟨rfl, ?_, ?_⟩
    · rw [(updateWalletTransaction_notes _ _ _ _).1]
      show List.Forall₂ _ s.notes (releaseInFlightNotes s2 (sel.map (·.noteId))).notes
      unfold releaseInFlightNotes
      simp only [hnotes2, hlnotes, List.map_map]
      refine forall2_map_self _ _ s.notes ?_
      intro n _
      constructor
      · intro hmem
        simp only [Function.comp_apply, if_pos hmem]
        have hmem2 : (lockNote walletTxId n).noteId ∈ sel.map (·.noteId) := by
          simpa [lockNote] using hmem
        rw [if_pos ⟨hmem2, rfl⟩]
        simp [lockNote]
      · intro hmem
        simp only [Function.comp_apply, if_neg hmem]
        rw [if_neg (fun hcon => hmem hcon.1)]
    · have hrel : (releaseInFlightNotes s2 (sel.map (·.noteId))).txs = s2.txs := rfl
      have hfirst : updateFirstTx walletTxId { status := some TxStatus.failed } now
          (releaseInFlightNotes s2 (sel.map (·.noteId))).txs =
          some (applyTxUpdate (createdWalletTx accountAddress walletTxId toAddress
              (sel.map (·.noteId)) amount (fee.getD (2 * NOCK_TO_NICKS)) ch now)
              { status := some TxStatus.failed } now ::
            (markNotesInFlight s (sel.map (·.noteId)) walletTxId).2.txs.take 199) := by
        rw [hrel, htxs2]
        simp [updateFirstTx, createdWalletTx]
      simp only [updateWalletTransaction, hfirst]
      refine ⟨_, List.mem_cons_self _ _, ?_, ?_⟩
      · simp [applyTxUpdate, createdWalletTx]
      · simp [applyTxUpdate]
  rcases hfail with hb | ⟨b, hb, hbr⟩
  · subst hb
    simp only [sendTransactionV2]
    rw [if_neg (by simpa [List.isEmpty_iff] using havail), hsel]
    simp only [hlock, Bool.false_eq_true, if_false]
    exact hcatch _ hs2notes hs2txs
  · subst hb
    subst hbr
    simp only [sendTransactionV2]
    rw [if_neg (by simpa [List.isEmpty_iff] using havail), hsel]
    simp only [hlock, Bool.false_eq_true, if_false]
    exact hcatch _ hs2notes hs2txs

/-- Witness for C3 at a concrete input: one available note of 100,
send of 3 with fee 0, construction throws "boom" — the caller gets the
structured failure carrying the cause. -/
theorem sendTransactionV2_failure_witness :
    (sendTransactionV2 ⟨[scenarioNote "n1" 100], 0, []⟩ "addr1" "w1" "r1" 3 (some 0)
        false (Except.error "boom") (Except.ok ()) 0).1 =
      Except.error ("Transaction failed: " ++ "boom") :=
  (sendTransactionV2_failure ⟨[scenarioNote "n1" 100], 0, []⟩ "addr1" "w1" "r1" 3
    (some 0) false (Except.error "boom") (Except.ok ()) 0 "boom"
    [scenarioNote "n1" 100] 97
    (by intro t ht; exact absurd ht (List.not_mem_nil t))
    (by decide) (by decide) (by decide) (Or.inl rfl)).1

/-! ## C5: transaction expiry -/

/-- The per-note function applied by `releaseInFlightNotes`. -/
def releaseFn (noteIds : List String) (n : StoredNote) : StoredNote :=
  if n.noteId ∈ noteIds ∧ n.state = NoteState.in_flight then
    { n with state := NoteState.available, pendingTxId := none }
  else n

theorem releaseInFlightNotes_notes (s : AccountState) (noteIds : List String) :
    (releaseInFlightNotes s noteIds).notes = s.notes.map (releaseFn noteIds) := rfl

theorem updateFirstTx_ids (txId : String) (u : TxUpdate) (now : Int) :
    ∀ l l' : List WalletTransaction, updateFirstTx txId u now l = some l' →
      l'.map (·.id) = l.map (·.id) := by
  intro l
  induction l with
  | nil => intro l' h; exact absurd h (by simp [updateFirstTx])
  | cons t rest ih =>
    intro l' h
    unfold updateFirstTx at h
    by_cases ht : t.id = txId
    · rw [if_pos ht] at h
      injection h with h
      rw [← h]
      simp [applyTxUpdate]
    · rw [if_neg ht] at h
      cases hrec : updateFirstTx txId u now rest with
      | none => rw [hrec] at h; exact absurd h (by simp)
      | some rest' =>
        rw [hrec] at h
        injection h with h
        rw [← h]
        simp only [List.map_cons]
        rw [ih rest' hrec]

theorem updateWalletTransaction_ids (s : AccountState) (txId : String) (u : TxUpdate)
    (now : Int) :
    (updateWalletTransaction s txId u now).txs.map (·.id) = s.txs.map (·.id) := by
  unfold updateWalletTransaction
  cases h : updateFirstTx txId u now s.txs with
  | none => rfl
  | some l => exact updateFirstTx_ids txId u now s.txs l h

theorem updateFirstTx_sets (txId : String) (u : TxUpdate) (now : Int) (st : TxStatus)
    (hu : u.status = some st) :
    ∀ l : List WalletTransaction, txId ∈ l.map (·.id) →
      ∃ l', updateFirstTx txId u now l = some l' ∧
        ∃ t' ∈ l', t'.id = txId ∧ t'.status = st := by
  intro l
  induction l with
  | nil => intro h; simp at h
  | cons t rest ih =>
    intro hmem
    unfold updateFirstTx
    by_cases ht : t.id = txId
    · rw [if_pos ht]
      refine ⟨_, rfl, applyTxUpdate t u now, List.mem_cons_self _ _, ?_, ?_⟩
      · simp [applyTxUpdate, ht]
      · simp [applyTxUpdate, hu]
    · rw [if_neg ht]
      have hmem' : txId ∈ rest.map (·.id) := by
        rcases List.mem_map.mp hmem with ⟨t0, ht0, hid⟩
        rcases List.mem_cons.mp ht0 with rfl | ht0
        · exact absurd hid ht
        · exact List.mem_map.mpr ⟨t0, ht0, hid⟩
      obtain ⟨l', hl', t', ht', hid', hst'⟩ := ih hmem'
      rw [hl']
      exact ⟨t :: l', rfl, t', List.mem_cons_of_mem t ht', hid', hst'⟩

theorem updateWalletTransaction_sets (s : AccountState) (txId : String) (u : TxUpdate)
    (now : Int) (st : TxStatus) (hu : u.status = some st)
    (hmem : txId ∈ s.txs.map (·.id)) :
    ∃ t' ∈ (updateWalletTransaction s txId u now).txs, t'.id = txId ∧ t'.status = st := by
  obtain ⟨l', hl', hwit⟩ := updateFirstTx_sets txId u now st hu s.txs hmem
  unfold updateWalletTransaction
  rw [hl']
  exact hwit

theorem updateFirstTx_witness (txId : String) (u : TxUpdate) (now : Int)
    (X : String) (st : TxStatus) (hu : u.status = some st) :
    ∀ l l' : List WalletTransaction, updateFirstTx txId u now l = some l' →
      (∃ t ∈ l, t.id = X ∧ t.status = st) →
      ∃ t ∈ l', t.id = X ∧ t.status = st := by
  intro l
  induction l with
  | nil => intro l' h _; exact absurd h (by simp [updateFirstTx])
  | cons t rest ih =>
    intro l' h ⟨w, hw, hwid, hwst⟩
    unfold updateFirstTx at h
    by_cases ht : t.id = txId
    · rw [if_pos ht] at h
      injection h with h
      rw [← h]
      rcases List.mem_cons.mp hw with rfl | hw
      · refine ⟨applyTxUpdate w u now, List.mem_cons_self _ _, ?_, ?_⟩
        · simp [applyTxUpdate, hwid]
        · simp [applyTxUpdate, hu]
      · exact ⟨w, List.mem_cons_of_mem _ hw, hwid, hwst⟩
    · rw [if_neg ht] at h
      cases hrec : updateFirstTx txId u now rest with
      | none => rw [hrec] at h; exact absurd h (by simp)
      | some rest' =>
        rw [hrec] at h
        injection h with h
        rw [← h]
        rcases List.mem_cons.mp hw with rfl | hw
        · exact ⟨w, List.mem_cons_self _ _, hwid, hwst⟩
        · obtain ⟨t2, ht2, hid2, hst2⟩ := ih rest' hrec ⟨w, hw, hwid, hwst⟩
          exact ⟨t2, List.mem_cons_of_mem _ ht2, hid2, hst2⟩

theorem updateWalletTransaction_witness (s : AccountState) (txId : String)
    (u : TxUpdate) (now : Int) (X : String) (st : TxStatus) (hu : u.status = some st)
    (hwit : ∃ t ∈ s.txs, t.id = X ∧ t.status = st) :
    ∃ t ∈ (updateWalletTransaction s txId u now).txs, t.id = X ∧ t.status = st := by
  unfold updateWalletTransaction
  cases h : updateFirstTx txId u now s.txs with
  | none => exact hwit
  | some l => exact updateFirstTx_witness txId u now X st hu s.txs l h hwit

/-- Relation between an original note and its state after some expiry
releases: unchanged, or released from `in_flight`. -/
def relD (o r : StoredNote) : Prop :=
  r = o ∨ (o.state = NoteState.in_flight ∧
    r = { o with state := NoteState.available, pendingTxId := none })

/-- `relD` strengthened at the inputs of one expired transaction: those
that were `in_flight` are definitely released. -/
def relQ (inputs : List String) (o r : StoredNote) : Prop :=
  ((o.noteId ∈ inputs ∧ o.state = NoteState.in_flight) →
    r = { o with state := NoteState.available, pendingTxId := none }) ∧ relD o r

theorem relD_releaseFn {noteIds : List String} {o r : StoredNote} (h : relD o r) :
    relD o (releaseFn noteIds r) := by
  rcases h with heq | ⟨hfl, heq⟩
  · rw [heq]
    unfold releaseFn
    by_cases hc : o.noteId ∈ noteIds ∧ o.state = NoteState.in_flight
    · rw [if_pos hc]
      exact Or.inr ⟨hc.2, rfl⟩
    · rw [if_neg hc]
      exact Or.inl rfl
  · rw [heq]
    unfold releaseFn
    rw [if_neg (by intro hc; exact absurd hc.2 (by simp))]
    exact Or.inr ⟨hfl, rfl⟩

theorem relQ_releaseFn {inputs noteIds : List String} {o r : StoredNote}
    (h : relQ inputs o r) : relQ inputs o (releaseFn noteIds r) := by
  refine ⟨?_, relD_releaseFn h.2⟩
  intro hm
  have hr := h.1 hm
  rw [hr]
  unfold releaseFn
  rw [if_neg (by intro hc; exact absurd hc.2 (by simp))]

theorem relQ_establish {inputs : List String} {o r : StoredNote} (h : relD o r) :
    relQ inputs o (releaseFn inputs r) := by
  refine ⟨?_, relD_releaseFn h⟩
  intro ⟨hm, hfl⟩
  rcases h with heq | ⟨_, heq⟩
  · rw [heq]
    unfold releaseFn
    rw [if_pos ⟨hm, hfl⟩]
  · rw [heq]
    unfold releaseFn
    rw [if_neg (by intro hc; exact absurd hc.2 (by simp))]

theorem forall2_map_right_imp {α β : Type} {P Q : α → β → Prop} (f : β → β) :
    ∀ {a : List α} {b : List β}, List.Forall₂ P a b → (∀ o r, P o r → Q o (f r)) →
      List.Forall₂ Q a (b.map f) := by
  intro a b h
  induction h with
  | nil => intro _; exact List.Forall₂.nil
  | cons hP _ ih =>
    intro himp
    exact List.Forall₂.cons (himp _ _ hP) (ih himp)

/-- One iteration of the expiry loop (release the expired transaction's
inputs, then mark it `expired`). -/
def expiryStep (now : Int) (acc : AccountState) (tx : WalletTransaction) : AccountState :=
  updateWalletTransaction
    (match tx.inputNoteIds with
      | some (i :: rest) => releaseInFlightNotes acc (i :: rest)
      | _ => acc) tx.id { status := some TxStatus.expired } now

theorem updNotes {s : AccountState} {txId : String} {u : TxUpdate} {now : Int} :
    (updateWalletTransaction s txId u now).notes = s.notes :=
  (updateWalletTransaction_notes s txId u now).1

theorem syncExpiryStage_fst (s : AccountState) (now : Int) :
    (syncExpiryStage s now).1 =
      (findExpiredTransactions s.txs TX_EXPIRY_MS now).foldl (expiryStep now) s := rfl

theorem expiryStep_inner_txs (acc : AccountState) (tx : WalletTransaction) :
    (match tx.inputNoteIds with
      | some (i :: rest) => releaseInFlightNotes acc (i :: rest)
      | _ => acc).txs = acc.txs := by
  rcases tx.inputNoteIds with _ | ⟨_ | ⟨i, rest⟩⟩ <;> rfl

theorem expiryStep_ids (now : Int) (acc : AccountState) (tx : WalletTransaction) :
    (expiryStep now acc tx).txs.map (·.id) = acc.txs.map (·.id) := by
  unfold expiryStep
  rw [updateWalletTransaction_ids, expiryStep_inner_txs]

theorem expiryStep_notes_relD {a : List StoredNote} (now : Int) (acc : AccountState)
    (tx : WalletTransaction) (h : List.Forall₂ relD a acc.notes) :
    List.Forall₂ relD a (expiryStep now acc tx).notes := by
  unfold expiryStep
  rw [updNotes]
  rcases htx : tx.inputNoteIds with _ | ⟨_ | ⟨i, rest⟩⟩ <;> simp only [htx]
  · exact h
  · exact h
  · rw [releaseInFlightNotes_notes]
    exact forall2_map_right_imp _ h (fun o r => relD_releaseFn)

theorem expiryStep_notes_relQ {a : List StoredNote} {inputs : List String} (now : Int)
    (acc : AccountState) (tx : WalletTransaction)
    (h : List.Forall₂ (relQ inputs) a acc.notes) :
    List.Forall₂ (relQ inputs) a (expiryStep now acc tx).notes := by
  unfold expiryStep
  rw [updNotes]
  rcases htx : tx.inputNoteIds with _ | ⟨_ | ⟨i, rest⟩⟩ <;> simp only [htx]
  · exact h
  · exact h
  · rw [releaseInFlightNotes_notes]
    exact forall2_map_right_imp _ h (fun o r => relQ_releaseFn)

theorem expiryStep_establish {a : List StoredNote} (now : Int) (acc : AccountState)
    (tx : WalletTransaction) (h : List.Forall₂ relD a acc.notes) :
    List.Forall₂ (relQ (tx.inputNoteIds.getD [])) a (expiryStep now acc tx).notes := by
  unfold expiryStep
  rw [updNotes]
  rcases htx : tx.inputNoteIds with _ | ⟨_ | ⟨i, rest⟩⟩ <;> simp only [htx]
  · refine h.imp ?_
    intro o r hD
    exact ⟨by intro hc; simp at hc, hD⟩
  · refine h.imp ?_
    intro o r hD
    exact ⟨by intro hc; simp at hc, hD⟩
  · rw [releaseInFlightNotes_notes]
    refine forall2_map_right_imp _ h (fun o r hD => ?_)
    simpa using relQ_establish hD

theorem expiryStep_status_preserve (now : Int) (acc : AccountState)
    (tx : WalletTransaction) (X : String)
    (h : ∃ t ∈ acc.txs, t.id = X ∧ t.status = TxStatus.expired) :
    ∃ t ∈ (expiryStep now acc tx).txs, t.id = X ∧ t.status = TxStatus.expired := by
  have h2 : ∃ t ∈ (match tx.inputNoteIds with
      | some (i :: rest) => releaseInFlightNotes acc (i :: rest)
      | _ => acc).txs, t.id = X ∧ t.status = TxStatus.expired := by
    rw [expiryStep_inner_txs]
    exact h
  exact updateWalletTransaction_witness _ tx.id _ now X TxStatus.expired rfl h2

/-- C5 (amended): when the expiry check runs (after the pass's
confirmation updates), every outgoing transaction still in a
non-terminal status whose age exceeds the 6-hour window is marked
`expired`; each of its input notes that is `in_flight` at that point is
returned to `available` with `pendingTxId` cleared, and every note not
`in_flight` is left unchanged by the stage. -/
theorem syncExpiryStage_amended (s : AccountState) (now : Int) (tx : WalletTransaction)
    (htx : tx ∈ s.txs) (hdir : tx.direction = TxDirection.outgoing)
    (hstatus : tx.status = TxStatus.created ∨ tx.status = TxStatus.broadcast_pending ∨
      tx.status = TxStatus.broadcasted_unconfirmed)
    (hold : now - tx.createdAt > TX_EXPIRY_MS) :
    (∃ t ∈ (syncExpiryStage s now).1.txs, t.id = tx.id ∧ t.status = TxStatus.expired) ∧
    List.Forall₂ (fun o r =>
        (o.noteId ∈ tx.inputNoteIds.getD [] ∧ o.state = NoteState.in_flight →
          r = { o with state := NoteState.available, pendingTxId := none }) ∧
        (o.state ≠ NoteState.in_flight → r = o))
      s.notes (syncExpiryStage s now).1.notes := by
  have hexp : tx ∈ findExpiredTransactions s.txs TX_EXPIRY_MS now := by
    unfold findExpiredTransactions
    refine List.mem_filter.mpr ⟨htx, ?_⟩
    rcases hstatus with h | h | h <;> simp [hdir, hold, h]
  obtain ⟨l1, l2, hsplit⟩ := List.append_of_mem hexp
  rw [syncExpiryStage_fst, hsplit, List.foldl_append, List.foldl_cons]
  have hidsA : (l1.foldl (expiryStep now) s).txs.map (·.id) = s.txs.map (·.id) := by
    refine foldl_invariant (fun cur => cur.txs.map (·.id) = s.txs.map (·.id)) _ l1 s rfl ?_
    intro cur t _ hP
    rw [expiryStep_ids, hP]
  have hrelA : List.Forall₂ relD s.notes (l1.foldl (expiryStep now) s).notes := by
    refine foldl_invariant (fun cur => List.Forall₂ relD s.notes cur.notes) _ l1 s
      (List.forall₂_same.mpr (fun x _ => (Or.inl rfl : relD x x))) ?_
    intro cur t _ hP
    exact expiryStep_notes_relD now cur t hP
  have hstatusB : ∃ t ∈ (expiryStep now (l1.foldl (expiryStep now) s) tx).txs,
      t.id = tx.id ∧ t.status = TxStatus.expired := by
    have hmem : tx.id ∈ List.map (fun t : WalletTransaction => t.id)
        ((match tx.inputNoteIds with
          | some (i :: rest) =>
            releaseInFlightNotes (l1.foldl (expiryStep now) s) (i :: rest)
          | _ => l1.foldl (expiryStep now) s) : AccountState).txs := by
      rw [expiryStep_inner_txs, hidsA]
      exact List.mem_map.mpr ⟨tx, htx, rfl⟩
    exact updateWalletTransaction_sets _ tx.id _ now TxStatus.expired rfl hmem
  have hrelB : List.Forall₂ (relQ (tx.inputNoteIds.getD [])) s.notes
      (expiryStep now (l1.foldl (expiryStep now) s) tx).notes :=
    expiryStep_establish now _ tx hrelA
  have hfinal := foldl_invariant (fun cur =>
      (∃ t ∈ cur.txs, t.id = tx.id ∧ t.status = TxStatus.expired) ∧
      List.Forall₂ (relQ (tx.inputNoteIds.getD [])) s.notes cur.notes)
    (expiryStep now) l2 (expiryStep now (l1.foldl (expiryStep now) s) tx)
    ⟨hstatusB, hrelB⟩ ?_
  · refine ⟨hfinal.1, hfinal.2.imp ?_⟩
    intro o r hQ
    refine ⟨hQ.1, ?_⟩
    intro hnfl
    rcases hQ.2 with rfl | ⟨hfl, _⟩
    · rfl
    · exact absurd hfl hnfl
  · intro cur t _ hP
    exact ⟨expiryStep_status_preserve now cur t tx.id hP.1,
      expiryStep_notes_relQ now cur t hP.2⟩

/-- A note locked by the transaction of the C5 counterexample. -/
def expiryCexNote : StoredNote :=
  { scenarioNote "n1" 5 with
    state := NoteState.in_flight
    pendingTxId := some "t1"
    discoveredAt := 99999999 }

/-- An outgoing `created` transaction from time 0 with one input note. -/
def expiryCexTx : WalletTransaction :=
  { sampleTx "t1" TxStatus.created 0 with inputNoteIds := some ["n1"] }

/-- C5 counterexample: a transaction non-terminal at the start of the
pass and older than the 6-hour window whose inputs are observed spent by
the very same pass is marked `confirmed`, not `expired` — the source
runs the confirmation steps before the expiry check, so "non-terminal
at the time reconciliation runs" does not guarantee expiry. -/
theorem syncExpiry_counterexample :
    TX_EXPIRY_MS < 100000000 - expiryCexTx.createdAt ∧
    expiryCexTx.status = TxStatus.created ∧
    (∃ t ∈ (syncAccountUTXOs ⟨[expiryCexNote], 0, [expiryCexTx]⟩ "addr1" []
        100000000 []).1.txs, t.id = "t1" ∧ t.status = TxStatus.confirmed) ∧
    (∀ t ∈ (syncAccountUTXOs ⟨[expiryCexNote], 0, [expiryCexTx]⟩ "addr1" []
        100000000 []).1.txs, t.status ≠ TxStatus.expired) := by
  decide

/-- Witness for the amended C5 at a concrete input: with no chain
activity the same old transaction is expired by the expiry stage and
its in-flight input is released. -/
theorem syncExpiryStage_amended_witness :
    (∃ t ∈ (syncExpiryStage ⟨[expiryCexNote], 0, [expiryCexTx]⟩ 100000000).1.txs,
      t.id = expiryCexTx.id ∧ t.status = TxStatus.expired) ∧
    List.Forall₂ (fun o r =>
        (o.noteId ∈ expiryCexTx.inputNoteIds.getD [] ∧ o.state = NoteState.in_flight →
          r = { o with state := NoteState.available, pendingTxId := none }) ∧
        (o.state ≠ NoteState.in_flight → r = o))
      (AccountState.mk [expiryCexNote] 0 [expiryCexTx]).notes
      (syncExpiryStage ⟨[expiryCexNote], 0, [expiryCexTx]⟩ 100000000).1.notes :=
  syncExpiryStage_amended ⟨[expiryCexNote], 0, [expiryCexTx]⟩ 100000000 expiryCexTx
    (by decide) (by decide) (Or.inl (by decide)) (by decide)

/-! ## C6: reconciliation never deletes transactions / resurrects spent notes -/

theorem syncAccountUTXOs_fst (s : AccountState) (accountAddress : String)
    (chain : List FetchedUTXO) (now : Int) (freshIds : List String) :
    (syncAccountUTXOs s accountAddress chain now freshIds).1 =
      removeSpentNotes
        (syncExpiryStage
          (syncPrevSpentStage
            (syncNewStage
              (syncSpentStage s
                (computeUTXODiff s.notes chain (getPendingOutgoingTransactions s)
                  (getAllOutgoingTransactions s))
                (getPendingOutgoingTransactions s) now)
              accountAddress
              (computeUTXODiff s.notes chain (getPendingOutgoingTransactions s)
                (getAllOutgoingTransactions s))
              now freshIds).1
            (getPendingOutgoingTransactions s)
            (computeUTXODiff s.notes chain (getPendingOutgoingTransactions s)
              (getAllOutgoingTransactions s))
            now).1
          now).1
        now SPENT_RETENTION_MS := rfl

theorem markNotesSpent_txs (s : AccountState) (noteIds : List String) :
    (markNotesSpent s noteIds).txs = s.txs := rfl

theorem releaseInFlightNotes_txs (s : AccountState) (noteIds : List String) :
    (releaseInFlightNotes s noteIds).txs = s.txs := rfl

theorem saveNotes_txs (s : AccountState) (newNotes : List StoredNote) :
    (saveNotes s newNotes).txs = s.txs := rfl

theorem removeSpentNotes_txs (s : AccountState) (now maxAgeMs : Int) :
    (removeSpentNotes s now maxAgeMs).txs = s.txs := by
  simp only [removeSpentNotes]
  split <;> rfl

/-- A transaction history evolved from `a` to `b` without deletion,
except possibly by hitting the 200-entry cap. -/
def TxsPreserved (a b : List WalletTransaction) : Prop :=
  (∀ tx ∈ a, (∃ t ∈ b, t.id = tx.id) ∨ b.length = 200) ∧
  (a.length = 200 → b.length = 200)

theorem TxsPreserved_refl (a : List WalletTransaction) : TxsPreserved a a :=
  ⟨fun tx htx => Or.inl ⟨tx, htx, rfl⟩, fun h => h⟩

theorem TxsPreserved_of_eq {a b : List WalletTransaction} (h : b = a) :
    TxsPreserved a b := h ▸ TxsPreserved_refl a

theorem TxsPreserved_trans {a b c : List WalletTransaction}
    (h1 : TxsPreserved a b) (h2 : TxsPreserved b c) : TxsPreserved a c := by
  refine ⟨?_, fun h => h2.2 (h1.2 h)⟩
  intro tx htx
  rcases h1.1 tx htx with ⟨t, ht, hid⟩ | hlen
  · rcases h2.1 t ht with ⟨t', ht', hid'⟩ | hlen'
    · exact Or.inl ⟨t', ht', hid'.trans hid⟩
    · exact Or.inr hlen'
  · exact Or.inr (h2.2 hlen)

theorem TxsPreserved_of_ids_eq {a b : List WalletTransaction}
    (h : b.map (·.id) = a.map (·.id)) : TxsPreserved a b := by
  constructor
  · intro tx htx
    have : tx.id ∈ b.map (·.id) := by
      rw [h]
      exact List.mem_map.mpr ⟨tx, htx, rfl⟩
    rcases List.mem_map.mp this with ⟨t, ht, hid⟩
    exact Or.inl ⟨t, ht, hid⟩
  · intro hlen
    have := congrArg List.length h
    rw [List.length_map, List.length_map] at this
    omega

theorem TxsPreserved_update (s : AccountState) (txId : String) (u : TxUpdate)
    (now : Int) : TxsPreserved s.txs (updateWalletTransaction s txId u now).txs :=
  TxsPreserved_of_ids_eq (updateWalletTransaction_ids s txId u now)

theorem TxsPreserved_add (s : AccountState) (tx : WalletTransaction) :
    TxsPreserved s.txs (addWalletTransaction s tx).txs := by
  unfold addWalletTransaction
  by_cases h : s.txs.any (fun t => decide (t.id = tx.id))
  · rw [if_pos h]
    exact TxsPreserved_refl s.txs
  · rw [if_neg h]
    constructor
    · intro t ht
      by_cases hlen : s.txs.length ≤ 199
      · refine Or.inl ⟨t, ?_, rfl⟩
        rw [List.take_of_length_le (by simp; omega)]
        exact List.mem_cons_of_mem tx ht
      · refine Or.inr ?_
        simp only [List.length_take, List.length_cons]
        omega
    · intro hlen
      simp only [List.length_take, List.length_cons]
      omega

theorem expiryStep_TxsPreserved (now : Int) (acc : AccountState)
    (tx : WalletTransaction) : TxsPreserved acc.txs (expiryStep now acc tx).txs := by
  have h1 := TxsPreserved_update
    (match tx.inputNoteIds with
      | some (i :: rest) => releaseInFlightNotes acc (i :: rest)
      | _ => acc) tx.id { status := some TxStatus.expired } now
  rw [expiryStep_inner_txs] at h1
  exact h1

theorem processNewUTXO_TxsPreserved (accountAddress : String)
    (isChangeMap : List (String × String)) (now : Int)
    (acc : AccountState × List StoredNote × Nat × Nat × List String)
    (u : FetchedUTXO) :
    TxsPreserved acc.1.txs
      (processNewUTXO accountAddress isChangeMap now acc u).1.txs := by
  rcases h : classifyNewUTXO u isChangeMap with ⟨b, o⟩
  cases b <;> cases o <;>
    simp only [processNewUTXO, h] <;>
    first
      | exact TxsPreserved_add _ _
      | exact TxsPreserved_refl _

theorem syncSpentStage_TxsPreserved (s : AccountState) (diff : UTXODiff)
    (pendingTxs : List WalletTransaction) (now : Int) :
    TxsPreserved s.txs (syncSpentStage s diff pendingTxs now).txs := by
  unfold syncSpentStage
  by_cases h : diff.nowSpent.isEmpty
  · rw [if_pos h]
    exact TxsPreserved_refl s.txs
  · rw [if_neg h]
    refine foldl_invariant (fun (cur : AccountState) => TxsPreserved s.txs cur.txs) _
      pendingTxs _ (TxsPreserved_of_eq (markNotesSpent_txs s _)) ?_
    intro cur tx _ hP
    split
    · exact TxsPreserved_trans hP (TxsPreserved_update cur tx.id _ now)
    · exact hP

theorem syncNewStage_TxsPreserved (s : AccountState) (accountAddress : String)
    (diff : UTXODiff) (now : Int) (freshIds : List String) :
    TxsPreserved s.txs (syncNewStage s accountAddress diff now freshIds).1.txs := by
  rw [syncNewStage_eq]
  have hfold : TxsPreserved s.txs
      (diff.newUTXOs.foldl (processNewUTXO accountAddress diff.isChangeMap now)
        (s, [], 0, 0, freshIds)).1.txs := by
    refine foldl_invariant
      (fun (cur : AccountState × List StoredNote × Nat × Nat × List String) =>
        TxsPreserved s.txs cur.1.txs)
      _ diff.newUTXOs (s, [], 0, 0, freshIds) (TxsPreserved_refl s.txs) ?_
    intro cur u _ hP
    exact TxsPreserved_trans hP (processNewUTXO_TxsPreserved accountAddress
      diff.isChangeMap now cur u)
  split
  · exact hfold
  · exact TxsPreserved_trans hfold (TxsPreserved_of_eq (saveNotes_txs _ _))

theorem syncPrevSpentStage_TxsPreserved (s : AccountState)
    (pendingTxs : List WalletTransaction) (diff : UTXODiff) (now : Int) :
    TxsPreserved s.txs (syncPrevSpentStage s pendingTxs diff now).1.txs := by
  rw [syncPrevSpentStage_eq]
  split
  · exact TxsPreserved_refl s.txs
  · refine foldl_invariant (fun (cur : AccountState × Nat) => TxsPreserved s.txs cur.1.txs)
      _ _ (s, 0) (TxsPreserved_refl s.txs) ?_
    intro cur tx _ hP
    rcases htx : tx.inputNoteIds with _ | ⟨_ | ⟨i, ids⟩⟩ <;> simp only [htx]
    · exact hP
    · exact hP
    · split
      · exact TxsPreserved_trans hP (TxsPreserved_update cur.1 tx.id _ now)
      · exact hP

theorem syncExpiryStage_TxsPreserved (s : AccountState) (now : Int) :
    TxsPreserved s.txs (syncExpiryStage s now).1.txs := by
  rw [syncExpiryStage_fst]
  refine foldl_invariant (fun cur => TxsPreserved s.txs cur.txs) _
    (findExpiredTransactions s.txs TX_EXPIRY_MS now) s (TxsPreserved_refl s.txs) ?_
  intro cur tx _ hP
  exact TxsPreserved_trans hP (expiryStep_TxsPreserved now cur tx)

theorem syncAccountUTXOs_TxsPreserved (s : AccountState) (accountAddress : String)
    (chain : List FetchedUTXO) (now : Int) (freshIds : List String) :
    TxsPreserved s.txs (syncAccountUTXOs s accountAddress chain now freshIds).1.txs := by
  rw [syncAccountUTXOs_fst, removeSpentNotes_txs]
  exact TxsPreserved_trans
    (syncSpentStage_TxsPreserved s
      (computeUTXODiff s.notes chain (getPendingOutgoingTransactions s)
        (getAllOutgoingTransactions s))
      (getPendingOutgoingTransactions s) now)
    (TxsPreserved_trans
      (syncNewStage_TxsPreserved _ accountAddress _ now freshIds)
      (TxsPreserved_trans
        (syncPrevSpentStage_TxsPreserved _ _ _ now)
        (syncExpiryStage_TxsPreserved _ now)))

theorem removeSpentNotes_mem {s : AccountState} {now maxAgeMs : Int} {n : StoredNote}
    (h : n ∈ (removeSpentNotes s now maxAgeMs).notes) : n ∈ s.notes := by
  simp only [removeSpentNotes] at h
  split at h
  · exact List.mem_of_mem_filter h
  · exact List.mem_of_mem_filter h

theorem syncExpiryStage_relD (s : AccountState) (now : Int) :
    List.Forall₂ relD s.notes (syncExpiryStage s now).1.notes := by
  rw [syncExpiryStage_fst]
  refine foldl_invariant (fun (cur : AccountState) => List.Forall₂ relD s.notes cur.notes)
    _ (findExpiredTransactions s.txs TX_EXPIRY_MS now) s
    (List.forall₂_same.mpr (fun x _ => (Or.inl rfl : relD x x))) ?_
  intro cur tx _ hP
  exact expiryStep_notes_relD now cur tx hP

theorem syncPrevSpentStage_notes (s : AccountState) (pendingTxs : List WalletTransaction)
    (diff : UTXODiff) (now : Int) :
    (syncPrevSpentStage s pendingTxs diff now).1.notes = s.notes := by
  rw [syncPrevSpentStage_eq]
  split
  · rfl
  · refine foldl_invariant (fun (cur : AccountState × Nat) => cur.1.notes = s.notes)
      _ _ (s, 0) rfl ?_
    intro cur tx _ hP
    rcases htx : tx.inputNoteIds with _ | ⟨_ | ⟨i, ids⟩⟩ <;> simp only [htx]
    · exact hP
    · exact hP
    · split
      · rw [updNotes]
        exact hP
      · exact hP

theorem syncSpentStage_notes (s : AccountState) (diff : UTXODiff)
    (pendingTxs : List WalletTransaction) (now : Int) :
    (syncSpentStage s diff pendingTxs now).notes =
      if diff.nowSpent.isEmpty then s.notes
      else s.notes.map (fun n =>
        if n.noteId ∈ diff.nowSpent.map (·.noteId) then { n with state := NoteState.spent }
        else n) := by
  unfold syncSpentStage
  by_cases h : diff.nowSpent.isEmpty
  · rw [if_pos h, if_pos h]
  · rw [if_neg h, if_neg h]
    refine foldl_invariant (fun (cur : AccountState) => cur.notes = s.notes.map (fun n =>
        if n.noteId ∈ diff.nowSpent.map (·.noteId) then { n with state := NoteState.spent }
        else n)) _ pendingTxs _ rfl ?_
    intro cur tx _ hP
    split
    · rw [updNotes]
      exact hP
    · exact hP

theorem syncSpentStage_mem {s : AccountState} {diff : UTXODiff}
    {pendingTxs : List WalletTransaction} {now : Int} {n : StoredNote}
    (h : n ∈ (syncSpentStage s diff pendingTxs now).notes) :
    ∃ m ∈ s.notes, n.noteId = m.noteId ∧ (n = m ∨ n.state = NoteState.spent) := by
  rw [syncSpentStage_notes] at h
  split at h
  · exact ⟨n, h, rfl, Or.inl rfl⟩
  · obtain ⟨m, hm, hmn⟩ := List.mem_map.mp h
    by_cases hc : m.noteId ∈ diff.nowSpent.map (·.noteId)
    · rw [if_pos hc] at hmn
      refine ⟨m, hm, ?_, Or.inr ?_⟩
      · rw [← hmn]
      · rw [← hmn]
    · rw [if_neg hc] at hmn
      exact ⟨m, hm, by rw [← hmn], Or.inl hmn.symm⟩

theorem syncNewStage_mem {s : AccountState} {accountAddress : String} {diff : UTXODiff}
    {now : Int} {freshIds : List String} {n : StoredNote}
    (h : n ∈ (syncNewStage s accountAddress diff now freshIds).1.notes) :
    n ∈ s.notes ∨
      ∃ u ∈ diff.newUTXOs, n = noteFor accountAddress diff.isChangeMap now u := by
  rw [syncNewStage_eq] at h
  obtain ⟨h1, _, h3⟩ := processNew_fold_notes accountAddress diff.isChangeMap now
    diff.newUTXOs (s, [], 0, 0, freshIds)
  split at h
  · rw [h1] at h
    exact Or.inl h
  · have h' : n ∈ upsertNotes
        (diff.newUTXOs.foldl (processNewUTXO accountAddress diff.isChangeMap now)
          (s, [], 0, 0, freshIds)).1.notes
        (diff.newUTXOs.foldl (processNewUTXO accountAddress diff.isChangeMap now)
          (s, [], 0, 0, freshIds)).2.1 := h
    rw [h1, h3] at h'
    simp only [List.nil_append] at h'
    rcases upsertNotes_mem h' with hmem | hmem
    · exact Or.inl hmem
    · obtain ⟨u, hu, hun⟩ := List.mem_map.mp hmem
      exact Or.inr ⟨u, hu, hun.symm⟩

theorem newUTXO_not_local {localNotes : List StoredNote} {chain : List FetchedUTXO}
    {pendingTxs allOutgoingTxs : List WalletTransaction} {u : FetchedUTXO}
    (hu : u ∈ (computeUTXODiff localNotes chain pendingTxs allOutgoingTxs).newUTXOs) :
    u ∈ chain ∧ u.noteId ∉ localNotes.map (·.noteId) := by
  unfold computeUTXODiff at hu
  have hmf := List.mem_filter.mp hu
  refine ⟨hmf.1, ?_⟩
  have h2 := hmf.2
  simp only [List.contains, List.elem_eq_mem, Bool.not_eq_true,
    decide_eq_false_iff_not] at h2
  simpa using h2

/-- C6 (amended): a reconciliation pass never resurrects a `spent` note
to `available` (any note id all of whose ledger entries are `spent`
stays `spent` in every surviving entry), and never removes a
`WalletTransaction` record except by evicting beyond the 200-entry
history cap — every pre-existing transaction id either survives the
pass or the history ends the pass exactly at the 200-entry cap. -/
theorem syncAccountUTXOs_no_deletion (s : AccountState) (accountAddress : String)
    (chain : List FetchedUTXO) (now : Int) (freshIds : List String) :
    (∀ tx ∈ s.txs,
      (∃ t ∈ (syncAccountUTXOs s accountAddress chain now freshIds).1.txs,
        t.id = tx.id) ∨
      (syncAccountUTXOs s accountAddress chain now freshIds).1.txs.length = 200) ∧
    (∀ id0 : String, (∃ n ∈ s.notes, n.noteId = id0) →
      (∀ n ∈ s.notes, n.noteId = id0 → n.state = NoteState.spent) →
      ∀ n' ∈ (syncAccountUTXOs s accountAddress chain now freshIds).1.notes,
        n'.noteId = id0 → n'.state = NoteState.spent) := by
  constructor
  · exact (syncAccountUTXOs_TxsPreserved s accountAddress chain now freshIds).1
  · intro id0 hex hall n' hn' hid
    obtain ⟨n0, hn0, hid0⟩ := hex
    rw [syncAccountUTXOs_fst] at hn'
    have hn'D := removeSpentNotes_mem hn'
    obtain ⟨o, ho, hrel⟩ := forall2_mem_right (syncExpiryStage_relD _ now) n' hn'D
    rw [syncPrevSpentStage_notes] at ho
    have hBspent : ∀ m, m ∈ (syncNewStage
        (syncSpentStage s
          (computeUTXODiff s.notes chain (getPendingOutgoingTransactions s)
            (getAllOutgoingTransactions s))
          (getPendingOutgoingTransactions s) now)
        accountAddress
        (computeUTXODiff s.notes chain (getPendingOutgoingTransactions s)
          (getAllOutgoingTransactions s))
        now freshIds).1.notes →
        m.noteId = id0 → m.state = NoteState.spent := by
      intro m hm hmid
      rcases syncNewStage_mem hm with hmA | ⟨u, hu, hmu⟩
      · obtain ⟨m0, hm0, hidm, hcase⟩ := syncSpentStage_mem hmA
        rcases hcase with heq | hspent
        · rw [heq]
          exact hall m0 hm0 (by rw [← hidm, hmid])
        · exact hspent
      · exfalso
        have hnl := (newUTXO_not_local hu).2
        have hidu : m.noteId = u.noteId := by
          rw [hmu]
          exact (noteFor_state accountAddress _ now u).2.1
        apply hnl
        rw [← hidu, hmid, ← hid0]
        exact List.mem_map.mpr ⟨n0, hn0, rfl⟩
    rcases hrel with heq | ⟨hfl, heq⟩
    · rw [heq]
      refine hBspent o ho ?_
      rw [← heq]
      exact hid
    · exfalso
      have hido : o.noteId = id0 := by
        rw [heq] at hid
        exact hid
      have := hBspent o ho hido
      rw [hfl] at this
      exact absurd this (by simp)

/-- An incoming confirmed transaction used to fill the history to the
200-entry cap. -/
def capCexTx : WalletTransaction :=
  { id := "a"
    accountAddress := "addr1"
    direction := TxDirection.incoming
    createdAt := 0
    updatedAt := 0
    status := TxStatus.confirmed
    amount := 1 }

/-- A chain note unknown to the local ledger. -/
def capCexUTXO : FetchedUTXO :=
  { noteId := "u1"
    sourceHash := "h1"
    originPage := 0
    assets := 7
    nameFirst := "u"
    nameLast := "1"
    noteDataHashBase58 := "" }

set_option maxRecDepth 20000 in
/-- C6 counterexample: with the history already holding 200 records, a
reconciliation pass that observes one new incoming note appends an
incoming transaction and evicts the oldest record — one of the 200
pre-existing records is removed by the pass. -/
theorem syncAccountUTXOs_removal_counterexample :
    (List.replicate 200 capCexTx).count capCexTx = 200 ∧
    (syncAccountUTXOs ⟨[], 0, List.replicate 200 capCexTx⟩ "addr1" [capCexUTXO] 50
      ["b"]).1.txs.count capCexTx = 199 := by
  decide

/-- Witness for the amended C6 at a concrete input: a lone confirmed
transaction survives a no-op reconciliation pass (or the cap is hit). -/
theorem syncAccountUTXOs_no_deletion_witness :
    (∃ t ∈ (syncAccountUTXOs ⟨[], 0, [sampleTx "t9" TxStatus.confirmed 0]⟩ "addr1"
        [] 5 []).1.txs, t.id = (sampleTx "t9" TxStatus.confirmed 0).id) ∨
    (syncAccountUTXOs ⟨[], 0, [sampleTx "t9" TxStatus.confirmed 0]⟩ "addr1"
        [] 5 []).1.txs.length = 200 :=
  (syncAccountUTXOs_no_deletion ⟨[], 0, [sampleTx "t9" TxStatus.confirmed 0]⟩
    "addr1" [] 5 []).1 (sampleTx "t9" TxStatus.confirmed 0)
    (List.mem_singleton_self _)

/-! ## C4: idempotence of reconciliation -/

theorem mem_nowSpent {localNotes : List StoredNote} {chain : List FetchedUTXO}
    {pendingTxs allOutgoingTxs : List WalletTransaction} {n : StoredNote} :
    n ∈ (computeUTXODiff localNotes chain pendingTxs allOutgoingTxs).nowSpent ↔
      n ∈ localNotes ∧ n.state ≠ NoteState.spent ∧
        n.noteId ∉ chain.map (·.noteId) := by
  unfold computeUTXODiff
  rw [List.mem_filter]
  simp only [List.contains, List.elem_eq_mem, Bool.and_eq_true, bne_iff_ne,
    Bool.not_eq_true', decide_eq_false_iff_not, ne_eq, and_assoc]

theorem area_nil (tx : WalletTransaction) :
    areTransactionInputsSpent tx [] = false := by
  unfold areTransactionInputsSpent
  rcases htx : tx.inputNoteIds with _ | ⟨_ | ⟨i, ids⟩⟩
  · rfl
  · rfl
  · simp [List.all_cons]

theorem removeSpentNotes_notes (s : AccountState) (now maxAgeMs : Int) :
    (removeSpentNotes s now maxAgeMs).notes =
      s.notes.filter (fun n =>
        n.state ≠ NoteState.spent ∨
          (n.discoveredAt ≠ 0 ∧ n.discoveredAt > now - maxAgeMs)) := by
  simp only [removeSpentNotes]
  split <;> rfl

theorem forall2_mem_left {α β : Type} {R : α → β → Prop} :
    ∀ {l : List α} {l' : List β}, List.Forall₂ R l l' → ∀ x ∈ l, ∃ y ∈ l', R x y := by
  intro l l' h
  induction h with
  | nil => intro x hx; exact absurd hx (List.not_mem_nil x)
  | cons hR _ ih =>
    intro x hx
    rcases List.mem_cons.mp hx with rfl | hx
    · exact ⟨_, List.mem_cons_self _ _, hR⟩
    · obtain ⟨y, hy, hR'⟩ := ih x hx
      exact ⟨y, List.mem_cons_of_mem _ hy, hR'⟩

theorem updateFirstTx_mem (txId : String) (u : TxUpdate) (now : Int) :
    ∀ {l l' : List WalletTransaction}, updateFirstTx txId u now l = some l' →
      ∀ t ∈ l', t ∈ l ∨ ∃ t0 ∈ l, t = applyTxUpdate t0 u now := by
  intro l
  induction l with
  | nil => intro l' h; exact absurd h (by simp [updateFirstTx])
  | cons t0 rest ih =>
    intro l' h t ht
    unfold updateFirstTx at h
    by_cases h0 : t0.id = txId
    · rw [if_pos h0] at h
      injection h with h
      rw [← h] at ht
      rcases List.mem_cons.mp ht with rfl | ht
      · exact Or.inr ⟨t0, List.mem_cons_self _ _, rfl⟩
      · exact Or.inl (List.mem_cons_of_mem _ ht)
    · rw [if_neg h0] at h
      cases hrec : updateFirstTx txId u now rest with
      | none => rw [hrec] at h; exact absurd h (by simp)
      | some rest' =>
        rw [hrec] at h
        injection h with h
        rw [← h] at ht
        rcases List.mem_cons.mp ht with rfl | ht
        · exact Or.inl (List.mem_cons_self _ _)
        · rcases ih hrec t ht with hin | ⟨t1, ht1, heq⟩
          · exact Or.inl (List.mem_cons_of_mem _ hin)
          · exact Or.inr ⟨t1, List.mem_cons_of_mem _ ht1, heq⟩

theorem updateWalletTransaction_mem {s : AccountState} {txId : String} {u : TxUpdate}
    {now : Int} {t : WalletTransaction}
    (ht : t ∈ (updateWalletTransaction s txId u now).txs) :
    t ∈ s.txs ∨ ∃ t0 ∈ s.txs, t = applyTxUpdate t0 u now := by
  unfold updateWalletTransaction at ht
  cases h : updateFirstTx txId u now s.txs with
  | none => rw [h] at ht; exact Or.inl ht
  | some l =>
    rw [h] at ht
    exact updateFirstTx_mem txId u now h t ht

theorem addWalletTransaction_mem {s : AccountState} {tx t : WalletTransaction}
    (ht : t ∈ (addWalletTransaction s tx).txs) : t ∈ s.txs ∨ t = tx := by
  unfold addWalletTransaction at ht
  by_cases h : s.txs.any (fun t0 => decide (t0.id = tx.id))
  · rw [if_pos h] at ht
    exact Or.inl ht
  · rw [if_neg h] at ht
    have := (List.take_sublist 200 (tx :: s.txs)).mem ht
    rcases List.mem_cons.mp this with rfl | hmem
    · exact Or.inr rfl
    · exact Or.inl hmem

theorem addWalletTransaction_nodup {s : AccountState} {tx : WalletTransaction}
    (h : (s.txs.map (·.id)).Nodup) :
    ((addWalletTransaction s tx).txs.map (·.id)).Nodup := by
  unfold addWalletTransaction
  by_cases hd : s.txs.any (fun t0 => decide (t0.id = tx.id))
  · rw [if_pos hd]
    exact h
  · rw [if_neg hd]
    have hnotin : tx.id ∉ s.txs.map (·.id) := by
      intro hmem
      rcases List.mem_map.mp hmem with ⟨t0, ht0, hid⟩
      exact hd (List.any_eq_true.mpr ⟨t0, ht0, decide_eq_true hid⟩)
    have hcons : ((tx :: s.txs).map (·.id)).Nodup := by
      rw [List.map_cons]
      exact List.nodup_cons.mpr ⟨hnotin, h⟩
    exact hcons.sublist ((List.take_sublist 200 (tx :: s.txs)).map _)

theorem updateWalletTransaction_nodup {s : AccountState} {txId : String}
    {u : TxUpdate} {now : Int} (h : (s.txs.map (·.id)).Nodup) :
    (((updateWalletTransaction s txId u now).txs).map (·.id)).Nodup := by
  rw [updateWalletTransaction_ids]
  exact h

theorem updateFirstTx_unique_sets (txId : String) (u : TxUpdate) (now : Int)
    (st : TxStatus) (hu : u.status = some st) :
    ∀ {l l' : List WalletTransaction}, (l.map (·.id)).Nodup →
      updateFirstTx txId u now l = some l' →
      ∀ t ∈ l', t.id = txId → t.status = st := by
  intro l
  induction l with
  | nil => intro l' _ h; exact absurd h (by simp [updateFirstTx])
  | cons t0 rest ih =>
    intro l' hnodup h t ht hid
    have hnodup' : (rest.map (·.id)).Nodup := (List.nodup_cons.mp (by simpa using hnodup)).2
    have hhead : t0.id ∉ rest.map (·.id) := (List.nodup_cons.mp (by simpa using hnodup)).1
    unfold updateFirstTx at h
    by_cases h0 : t0.id = txId
    · rw [if_pos h0] at h
      injection h with h
      rw [← h] at ht
      rcases List.mem_cons.mp ht with rfl | ht
      · simp [applyTxUpdate, hu]
      · exfalso
        apply hhead
        rw [h0, ← hid]
        exact List.mem_map.mpr ⟨t, ht, rfl⟩
    · rw [if_neg h0] at h
      cases hrec : updateFirstTx txId u now rest with
      | none => rw [hrec] at h; exact absurd h (by simp)
      | some rest' =>
        rw [hrec] at h
        injection h with h
        rw [← h] at ht
        rcases List.mem_cons.mp ht with rfl | ht
        · exact absurd hid h0
        · exact ih hnodup' hrec t ht hid

theorem updateWalletTransaction_unique_sets {s : AccountState} {txId : String}
    {u : TxUpdate} {now : Int} {st : TxStatus} (hu : u.status = some st)
    (hnodup : (s.txs.map (·.id)).Nodup) :
    ∀ t ∈ (updateWalletTransaction s txId u now).txs, t.id = txId →
      (t.status = st ∨ t ∈ s.txs) := by
  intro t ht hid
  unfold updateWalletTransaction at ht
  cases h : updateFirstTx txId u now s.txs with
  | none => rw [h] at ht; exact Or.inr ht
  | some l =>
    rw [h] at ht
    exact Or.inl (updateFirstTx_unique_sets txId u now st hu hnodup h t ht hid)

theorem syncSpentStage_nonspent_in_chain (s : AccountState) (chain : List FetchedUTXO)
    (pendingTxs allOut : List WalletTransaction) (now : Int) :
    ∀ n ∈ (syncSpentStage s (computeUTXODiff s.notes chain pendingTxs allOut)
        pendingTxs now).notes,
      n.state ≠ NoteState.spent → n.noteId ∈ chain.map (·.noteId) := by
  intro n hn hns
  rw [syncSpentStage_notes] at hn
  split at hn
  · rename_i hemp
    by_contra hnotin
    have hmem : n ∈ (computeUTXODiff s.notes chain pendingTxs allOut).nowSpent :=
      mem_nowSpent.mpr ⟨hn, hns, hnotin⟩
    rw [List.isEmpty_iff] at hemp
    rw [hemp] at hmem
    exact absurd hmem (List.not_mem_nil n)
  · obtain ⟨m, hm, hmn⟩ := List.mem_map.mp hn
    by_cases hc : m.noteId ∈
        (computeUTXODiff s.notes chain pendingTxs allOut).nowSpent.map (·.noteId)
    · rw [if_pos hc] at hmn
      rw [← hmn] at hns
      exact absurd rfl hns
    · rw [if_neg hc] at hmn
      rw [← hmn]
      by_contra hnotin
      apply hc
      refine List.mem_map.mpr ⟨m, mem_nowSpent.mpr ⟨hm, ?_, hnotin⟩, rfl⟩
      rw [hmn]
      exact hns

theorem stageB_nonspent_in_chain (s : AccountState) (accountAddress : String)
    (chain : List FetchedUTXO) (pendingTxs allOut : List WalletTransaction)
    (now : Int) (freshIds : List String) :
    ∀ n ∈ (syncNewStage
        (syncSpentStage s (computeUTXODiff s.notes chain pendingTxs allOut)
          pendingTxs now)
        accountAddress (computeUTXODiff s.notes chain pendingTxs allOut)
        now freshIds).1.notes,
      n.state ≠ NoteState.spent → n.noteId ∈ chain.map (·.noteId) := by
  intro n hn hns
  rcases syncNewStage_mem hn with hmem | ⟨u, hu, rfl⟩
  · exact syncSpentStage_nonspent_in_chain s chain pendingTxs allOut now n hmem hns
  · rw [(noteFor_state accountAddress _ now u).2.1]
    exact List.mem_map.mpr ⟨u, (newUTXO_not_local hu).1, rfl⟩

/-! Key tracking through the `saveNotes` merge. -/

theorem setAssoc_self (m : List (String × StoredNote)) (k : String) (v : StoredNote) :
    (k, v) ∈ setAssoc m k v := by
  unfold setAssoc
  by_cases h : m.any (fun p => decide (p.1 = k))
  · rw [if_pos h]
    obtain ⟨p, hp, hpk⟩ := List.any_eq_true.mp h
    refine List.mem_map.mpr ⟨p, hp, ?_⟩
    rw [if_pos (of_decide_eq_true hpk)]
  · rw [if_neg h]
    exact List.mem_append.mpr (Or.inr (List.mem_singleton_self _))

theorem setAssoc_other {m : List (String × StoredNote)} {k : String} {v : StoredNote}
    {p : String × StoredNote} (hp : p ∈ m) (hne : p.1 ≠ k) : p ∈ setAssoc m k v := by
  unfold setAssoc
  by_cases h : m.any (fun q => decide (q.1 = k))
  · rw [if_pos h]
    refine List.mem_map.mpr ⟨p, hp, ?_⟩
    rw [if_neg hne]
  · rw [if_neg h]
    exact List.mem_append.mpr (Or.inl hp)

theorem buildMap_key_tracked (cid : String) (A : List StoredNote) :
    ∀ (l : List StoredNote) (init : List (String × StoredNote)),
      (∀ x ∈ l, x.noteId = cid → x ∈ A) →
      ((∃ p ∈ init, p.1 = cid ∧ p.2 ∈ A ∧ p.2.noteId = cid) ∨
        (∃ x ∈ l, x.noteId = cid ∧ x ∈ A)) →
      ∃ p ∈ l.foldl (fun m n => setAssoc m n.noteId n) init,
        p.1 = cid ∧ p.2 ∈ A ∧ p.2.noteId = cid := by
  intro l
  induction l with
  | nil =>
    intro init _ hstart
    rcases hstart with h | ⟨x, hx, _⟩
    · exact h
    · exact absurd hx (List.not_mem_nil x)
  | cons x xs ih =>
    intro init hl hstart
    rw [List.foldl_cons]
    by_cases hx : x.noteId = cid
    · refine ih (setAssoc init x.noteId x)
        (fun y hy => hl y (List.mem_cons_of_mem x hy)) (Or.inl ?_)
      have hxA : x ∈ A := hl x (List.mem_cons_self x xs) hx
      exact ⟨(x.noteId, x), setAssoc_self init x.noteId x, hx, hxA, hx⟩
    · refine ih (setAssoc init x.noteId x)
        (fun y hy => hl y (List.mem_cons_of_mem x hy)) ?_
      rcases hstart with ⟨p, hp, hpk, hpA, hpid⟩ | ⟨y, hy, hyid, hyA⟩
      · refine Or.inl ⟨p, setAssoc_other hp ?_, hpk, hpA, hpid⟩
        rw [hpk]
        exact fun hcontra => hx hcontra.symm
      · rcases List.mem_cons.mp hy with rfl | hy
        · exact absurd hyid hx
        · exact Or.inr ⟨y, hy, hyid, hyA⟩

theorem upsert_key_tracked {a b A : List StoredNote} {cid : String}
    (hl : ∀ x, x ∈ a ++ b → x.noteId = cid → x ∈ A)
    (hex : ∃ x, x ∈ a ++ b ∧ x.noteId = cid) :
    ∃ m ∈ upsertNotes a b, m.noteId = cid ∧ m ∈ A := by
  obtain ⟨x0, hx0, hx0id⟩ := hex
  obtain ⟨p, hp, hpk, hpA, hpid⟩ := buildMap_key_tracked cid A (a ++ b) [] hl
    (Or.inr ⟨x0, hx0, hx0id, hl x0 hx0 hx0id⟩)
  exact ⟨p.2, List.mem_map.mpr ⟨p, hp, rfl⟩, hpid, hpA⟩

theorem syncNewStage_notes (s : AccountState) (accountAddress : String)
    (diff : UTXODiff) (now : Int) (freshIds : List String) :
    (syncNewStage s accountAddress diff now freshIds).1.notes =
      if diff.newUTXOs.isEmpty then s.notes
      else upsertNotes s.notes
        (diff.newUTXOs.map (noteFor accountAddress diff.isChangeMap now)) := by
  by_cases hemp : diff.newUTXOs.isEmpty
  · rw [if_pos hemp]
    rw [List.isEmpty_iff] at hemp
    rw [syncNewStage_eq, hemp]
    rfl
  · rw [if_neg hemp]
    rw [syncNewStage_eq]
    obtain ⟨h1, _, h3⟩ := processNew_fold_notes accountAddress diff.isChangeMap now
      diff.newUTXOs (s, [], 0, 0, freshIds)
    have hcond : (diff.newUTXOs.foldl
        (processNewUTXO accountAddress diff.isChangeMap now)
        (s, [], 0, 0, freshIds)).2.1.isEmpty = false := by
      rw [h3]
      simp only [List.nil_append]
      cases hu : diff.newUTXOs with
      | nil => exact absurd (by rw [hu]; rfl) hemp
      | cons a l => rfl
    rw [hcond, if_neg (by simp)]
    show (saveNotes _ _).notes = _
    unfold saveNotes
    show upsertNotes _ _ = _
    rw [h1, h3]
    simp only [List.nil_append]

theorem stageA_keeps_chain_note {s : AccountState} {chain : List FetchedUTXO}
    {pendingTxs allOut : List WalletTransaction} {now : Int} {x : StoredNote}
    (hx : x ∈ s.notes) (hcid : x.noteId ∈ chain.map (·.noteId)) :
    x ∈ (syncSpentStage s (computeUTXODiff s.notes chain pendingTxs allOut)
      pendingTxs now).notes := by
  rw [syncSpentStage_notes]
  split
  · exact hx
  · refine List.mem_map.mpr ⟨x, hx, ?_⟩
    rw [if_neg ?_]
    intro hc
    obtain ⟨m, hm, hmid⟩ := List.mem_map.mp hc
    have := (mem_nowSpent.mp hm).2.2
    rw [hmid] at this
    exact this hcid

theorem syncSpentStage_chainid_mem {s : AccountState} {chain : List FetchedUTXO}
    {pendingTxs allOut : List WalletTransaction} {now : Int} {m : StoredNote}
    (hm : m ∈ (syncSpentStage s (computeUTXODiff s.notes chain pendingTxs allOut)
      pendingTxs now).notes)
    (hchain : m.noteId ∈ chain.map (·.noteId)) : m ∈ s.notes := by
  rw [syncSpentStage_notes] at hm
  split at hm
  · exact hm
  · obtain ⟨x, hx, hxm⟩ := List.mem_map.mp hm
    by_cases hc : x.noteId ∈
        (computeUTXODiff s.notes chain pendingTxs allOut).nowSpent.map (·.noteId)
    · exfalso
      rw [if_pos hc] at hxm
      have hid : m.noteId = x.noteId := by rw [← hxm]
      obtain ⟨y, hy, hyid⟩ := List.mem_map.mp hc
      have := (mem_nowSpent.mp hy).2.2
      rw [hyid, ← hid] at this
      exact this hchain
    · rw [if_neg hc] at hxm
      rw [← hxm]
      exact hx

theorem mem_newUTXOs_of {localNotes : List StoredNote} {chain : List FetchedUTXO}
    {pendingTxs allOut : List WalletTransaction} {u : FetchedUTXO}
    (hu : u ∈ chain) (hnot : u.noteId ∉ localNotes.map (·.noteId)) :
    u ∈ (computeUTXODiff localNotes chain pendingTxs allOut).newUTXOs := by
  unfold computeUTXODiff
  refine List.mem_filter.mpr ⟨hu, ?_⟩
  simp only [List.contains, List.elem_eq_mem, Bool.not_eq_true', decide_eq_false_iff_not]
  simpa using hnot

/-- The note survival property checked by the spent-note cleanup. -/
def Survives (now : Int) (n : StoredNote) : Prop :=
  n.state ≠ NoteState.spent ∨
    (n.discoveredAt ≠ 0 ∧ n.discoveredAt > now - SPENT_RETENTION_MS)

theorem stageB_chain_ids_covered (s : AccountState) (accountAddress : String)
    (chain : List FetchedUTXO) (pendingTxs allOut : List WalletTransaction)
    (now : Int) (freshIds : List String)
    (hret : ∀ n ∈ s.notes, n.state = NoteState.spent →
      n.noteId ∈ chain.map (·.noteId) →
      (n.discoveredAt ≠ 0 ∧ n.discoveredAt > now - SPENT_RETENTION_MS)) :
    ∀ cid ∈ chain.map (·.noteId),
      ∃ m ∈ (syncNewStage
          (syncSpentStage s (computeUTXODiff s.notes chain pendingTxs allOut)
            pendingTxs now)
          accountAddress (computeUTXODiff s.notes chain pendingTxs allOut)
          now freshIds).1.notes,
        m.noteId = cid ∧ Survives now m := by
  intro cid hcid
  obtain ⟨u0, hu0, hu0id⟩ := List.mem_map.mp hcid
  rw [syncNewStage_notes]
  have hsurv_of_sA : ∀ m ∈ (syncSpentStage s
      (computeUTXODiff s.notes chain pendingTxs allOut) pendingTxs now).notes,
      m.noteId = cid → Survives now m := by
    intro m hm hmid
    have hmchain : m.noteId ∈ chain.map (·.noteId) := by rw [hmid]; exact hcid
    have hms : m ∈ s.notes := syncSpentStage_chainid_mem hm hmchain
    by_cases hsp : m.state = NoteState.spent
    · exact Or.inr (hret m hms hsp hmchain)
    · exact Or.inl hsp
  by_cases hloc : cid ∈ s.notes.map (·.noteId)
  · -- the note is locally known: it survives stage A unchanged
    obtain ⟨x, hx, hxid⟩ := List.mem_map.mp hloc
    have hxA : x ∈ (syncSpentStage s
        (computeUTXODiff s.notes chain pendingTxs allOut) pendingTxs now).notes :=
      stageA_keeps_chain_note hx (by rw [hxid]; exact hcid)
    split
    · exact ⟨x, hxA, hxid, hsurv_of_sA x hxA hxid⟩
    · have hbids : ∀ y ∈ (computeUTXODiff s.notes chain pendingTxs allOut).newUTXOs.map
          (noteFor accountAddress
            (computeUTXODiff s.notes chain pendingTxs allOut).isChangeMap now),
          y.noteId ≠ cid := by
        intro y hy
        obtain ⟨u, hu, huy⟩ := List.mem_map.mp hy
        rw [← huy, (noteFor_state accountAddress _ now u).2.1]
        intro heq
        exact (newUTXO_not_local hu).2 (heq ▸ hloc)
      obtain ⟨m, hmem, hmid, hmA⟩ := upsert_key_tracked
        (a := (syncSpentStage s (computeUTXODiff s.notes chain pendingTxs allOut)
          pendingTxs now).notes)
        (A := (syncSpentStage s (computeUTXODiff s.notes chain pendingTxs allOut)
          pendingTxs now).notes)
        (fun y hy hyid => by
          rcases List.mem_append.mp hy with h | h
          · exact h
          · exact absurd hyid (hbids y h))
        ⟨x, List.mem_append.mpr (Or.inl hxA), hxid⟩
      exact ⟨m, hmem, hmid, hsurv_of_sA m hmA hmid⟩
  · -- the note is new: it is inserted by the merge in `available` state
    have hu0new : u0 ∈ (computeUTXODiff s.notes chain pendingTxs allOut).newUTXOs :=
      mem_newUTXOs_of hu0 (by rw [hu0id]; exact hloc)
    have hnempty : (computeUTXODiff s.notes chain pendingTxs allOut).newUTXOs.isEmpty
        = false := by
      cases hc : (computeUTXODiff s.notes chain pendingTxs allOut).newUTXOs with
      | nil => rw [hc] at hu0new; exact absurd hu0new (List.not_mem_nil u0)
      | cons a l => rfl
    rw [hnempty, if_neg (by simp)]
    have hsAids : ∀ y ∈ (syncSpentStage s
        (computeUTXODiff s.notes chain pendingTxs allOut) pendingTxs now).notes,
        y.noteId ≠ cid := by
      intro y hy heq
      obtain ⟨m0, hm0, hym0, _⟩ := syncSpentStage_mem hy
      apply hloc
      rw [← heq, hym0]
      exact List.mem_map.mpr ⟨m0, hm0, rfl⟩
    obtain ⟨m, hmem, hmid, hmB⟩ := upsert_key_tracked
      (a := (syncSpentStage s (computeUTXODiff s.notes chain pendingTxs allOut)
        pendingTxs now).notes)
      (A := (computeUTXODiff s.notes chain pendingTxs allOut).newUTXOs.map
        (noteFor accountAddress
          (computeUTXODiff s.notes chain pendingTxs allOut).isChangeMap now))
      (fun y hy hyid => by
        rcases List.mem_append.mp hy with h | h
        · exact absurd hyid (hsAids y h)
        · exact h)
      ⟨noteFor accountAddress
          (computeUTXODiff s.notes chain pendingTxs allOut).isChangeMap now u0,
        List.mem_append.mpr (Or.inr (List.mem_map.mpr ⟨u0, hu0new, rfl⟩)),
        by rw [(noteFor_state accountAddress _ now u0).2.1]; exact hu0id⟩
    refine ⟨m, hmem, hmid, ?_⟩
    obtain ⟨u, _, hum⟩ := List.mem_map.mp hmB
    refine Or.inl ?_
    rw [← hum, (noteFor_state accountAddress _ now u).1]
    simp

/-- The status test used by `getPendingOutgoingTransactions`. -/
def isPendingStatus (st : TxStatus) : Bool :=
  st == TxStatus.created || st == TxStatus.broadcast_pending ||
    st == TxStatus.broadcasted_unconfirmed

theorem getPendingOutgoingTransactions_eq (s : AccountState) :
    getPendingOutgoingTransactions s =
      s.txs.filter (fun t => t.direction == TxDirection.outgoing &&
        isPendingStatus t.status) := rfl

/-- Every transaction record with this id has left the pending statuses. -/
def IdTerminal (X : String) (txs : List WalletTransaction) : Prop :=
  ∀ t ∈ txs, t.id = X → isPendingStatus t.status = false

theorem applyTxUpdate_status {tx : WalletTransaction} {u : TxUpdate} {now : Int}
    {st : TxStatus} (hu : u.status = some st) :
    (applyTxUpdate tx u now).status = st := by
  simp [applyTxUpdate, hu]

theorem IdTerminal_update {s : AccountState} {txId X : String} {u : TxUpdate}
    {now : Int} {st : TxStatus} (hu : u.status = some st)
    (hst : isPendingStatus st = false)
    (h : IdTerminal X s.txs) :
    IdTerminal X (updateWalletTransaction s txId u now).txs := by
  intro t ht hid
  rcases updateWalletTransaction_mem ht with hmem | ⟨t0, _, rfl⟩
  · exact h t hmem hid
  · rw [applyTxUpdate_status hu]
    exact hst

theorem IdTerminal_add {s : AccountState} {X : String} {tx : WalletTransaction}
    (htx : isPendingStatus tx.status = false)
    (h : IdTerminal X s.txs) : IdTerminal X (addWalletTransaction s tx).txs := by
  intro t ht hid
  rcases addWalletTransaction_mem ht with hmem | rfl
  · exact h t hmem hid
  · exact htx

theorem updateFirstTx_none (txId : String) (u : TxUpdate) (now : Int) :
    ∀ {l : List WalletTransaction}, updateFirstTx txId u now l = none →
      txId ∉ l.map (·.id) := by
  intro l
  induction l with
  | nil => intro _ h; simp at h
  | cons t rest ih =>
    intro h hmem
    unfold updateFirstTx at h
    by_cases h0 : t.id = txId
    · rw [if_pos h0] at h
      exact absurd h (by simp)
    · rw [if_neg h0] at h
      cases hrec : updateFirstTx txId u now rest with
      | none =>
        rcases List.mem_map.mp hmem with ⟨t1, ht1, hid1⟩
        rcases List.mem_cons.mp ht1 with rfl | ht1
        · exact h0 hid1
        · exact ih hrec (List.mem_map.mpr ⟨t1, ht1, hid1⟩)
      | some rest' =>
        rw [hrec] at h
        exact absurd h (by simp)

theorem IdTerminal_establish {s : AccountState} {X : String} {u : TxUpdate}
    {now : Int} {st : TxStatus} (hu : u.status = some st)
    (hst : isPendingStatus st = false)
    (hnodup : (s.txs.map (·.id)).Nodup) :
    IdTerminal X (updateWalletTransaction s X u now).txs := by
  intro t ht hid
  unfold updateWalletTransaction at ht
  cases h : updateFirstTx X u now s.txs with
  | none =>
    rw [h] at ht
    exact absurd (List.mem_map.mpr ⟨t, ht, hid⟩) (updateFirstTx_none X u now h)
  | some l =>
    rw [h] at ht
    rw [updateFirstTx_unique_sets X u now st hu hnodup h t ht hid]
    exact hst

/-! Pending-transaction backward tracing through the stages. -/

theorem syncSpentStage_pending_mem {s : AccountState} {diff : UTXODiff}
    {pendingTxs : List WalletTransaction} {now : Int} {t : WalletTransaction}
    (ht : t ∈ (syncSpentStage s diff pendingTxs now).txs)
    (hp : isPendingStatus t.status = true) : t ∈ s.txs := by
  unfold syncSpentStage at ht
  split at ht
  · exact ht
  · have key : t ∈ s.txs ∨ isPendingStatus t.status = false := by
      refine foldl_invariant (fun (cur : AccountState) =>
          ∀ t0 ∈ cur.txs, t0 ∈ s.txs ∨ isPendingStatus t0.status = false)
        _ pendingTxs (markNotesSpent s (diff.nowSpent.map (·.noteId)))
        (fun t0 ht0 => Or.inl ht0) ?_ t ht
      intro cur tx _ hP t0 ht0
      split at ht0
      · rcases updateWalletTransaction_mem ht0 with hmem | ⟨t1, _, rfl⟩
        · exact hP t0 hmem
        · exact Or.inr (by rw [applyTxUpdate_status rfl]; rfl)
      · exact hP t0 ht0
    rcases key with hmem | hterm
    · exact hmem
    · rw [hp] at hterm
      exact absurd hterm (by simp)

theorem syncNewStage_outgoing_mem {s : AccountState} {accountAddress : String}
    {diff : UTXODiff} {now : Int} {freshIds : List String} {t : WalletTransaction}
    (ht : t ∈ (syncNewStage s accountAddress diff now freshIds).1.txs)
    (hdir : t.direction = TxDirection.outgoing) : t ∈ s.txs := by
  rw [syncNewStage_eq] at ht
  have hmem : t ∈ (diff.newUTXOs.foldl
      (processNewUTXO accountAddress diff.isChangeMap now)
      (s, [], 0, 0, freshIds)).1.txs := by
    split at ht
    · exact ht
    · rw [saveNotes_txs] at ht
      exact ht
  have hfold : t ∈ s.txs ∨ t.direction = TxDirection.incoming := by
    refine foldl_invariant
      (fun (cur : AccountState × List StoredNote × Nat × Nat × List String) =>
        ∀ t0 ∈ cur.1.txs, t0 ∈ s.txs ∨ t0.direction = TxDirection.incoming)
      _ diff.newUTXOs (s, [], 0, 0, freshIds) (fun t0 ht0 => Or.inl ht0) ?_ t hmem
    intro cur u _ hP t0 ht0
    rcases hcls : classifyNewUTXO u diff.isChangeMap with ⟨b, o⟩
    have ht0' := ht0
    rcases b with _ | _ <;> rcases o with _ | txId <;>
      simp only [processNewUTXO, hcls] at ht0'
    · rcases addWalletTransaction_mem ht0' with hmem1 | rfl
      · exact hP t0 hmem1
      · exact Or.inr rfl
    · rcases addWalletTransaction_mem ht0' with hmem1 | rfl
      · exact hP t0 hmem1
      · exact Or.inr rfl
    · rcases addWalletTransaction_mem ht0' with hmem1 | rfl
      · exact hP t0 hmem1
      · exact Or.inr rfl
    · exact hP t0 ht0'
  rcases hfold with hmem2 | hinc
  · exact hmem2
  · rw [hdir] at hinc
    exact absurd hinc (by simp)

theorem syncPrevSpentStage_pending_mem {s : AccountState}
    {pendingTxs : List WalletTransaction} {diff : UTXODiff} {now : Int}
    {t : WalletTransaction}
    (ht : t ∈ (syncPrevSpentStage s pendingTxs diff now).1.txs)
    (hp : isPendingStatus t.status = true) : t ∈ s.txs := by
  rw [syncPrevSpentStage_eq] at ht
  split at ht
  · exact ht
  · have key : t ∈ s.txs ∨ isPendingStatus t.status = false := by
      refine foldl_invariant (fun (cur : AccountState × Nat) =>
          ∀ t0 ∈ cur.1.txs, t0 ∈ s.txs ∨ isPendingStatus t0.status = false)
        _ _ (s, 0) (fun t0 ht0 => Or.inl ht0) ?_ t ht
      intro cur tx _ hP t0 ht0
      rcases htx : tx.inputNoteIds with _ | ⟨_ | ⟨i, is0⟩⟩ <;> simp only [htx] at ht0
      · exact hP t0 ht0
      · exact hP t0 ht0
      · split at ht0
        · rcases updateWalletTransaction_mem ht0 with hmem | ⟨t1, _, rfl⟩
          · exact hP t0 hmem
          · exact Or.inr (by rw [applyTxUpdate_status rfl]; rfl)
        · exact hP t0 ht0
    rcases key with hmem | hterm
    · exact hmem
    · rw [hp] at hterm
      exact absurd hterm (by simp)

theorem syncExpiryStage_pending_mem {s : AccountState} {now : Int}
    {t : WalletTransaction}
    (ht : t ∈ (syncExpiryStage s now).1.txs)
    (hp : isPendingStatus t.status = true) : t ∈ s.txs := by
  rw [syncExpiryStage_fst] at ht
  have key : t ∈ s.txs ∨ isPendingStatus t.status = false := by
    refine foldl_invariant (fun (cur : AccountState) =>
        ∀ t0 ∈ cur.txs, t0 ∈ s.txs ∨ isPendingStatus t0.status = false)
      _ (findExpiredTransactions s.txs TX_EXPIRY_MS now) s
      (fun t0 ht0 => Or.inl ht0) ?_ t ht
    intro cur tx _ hP t0 ht0
    unfold expiryStep at ht0
    rcases updateWalletTransaction_mem ht0 with hmem | ⟨t1, hmem1, rfl⟩
    · rw [expiryStep_inner_txs] at hmem
      exact hP t0 hmem
    · exact Or.inr (by rw [applyTxUpdate_status rfl]; rfl)
  rcases key with hmem | hterm
  · exact hmem
  · rw [hp] at hterm
    exact absurd hterm (by simp)

theorem foldl_id {α σ : Type} (f : σ → α → σ) :
    ∀ (l : List α) (s : σ), (∀ x ∈ l, ∀ s', f s' x = s') → l.foldl f s = s := by
  intro l
  induction l with
  | nil => intro s _; rfl
  | cons a rest ih =>
    intro s h
    rw [List.foldl_cons, h a (List.mem_cons_self a rest) s]
    exact ih s (fun x hx s' => h x (List.mem_cons_of_mem a hx) s')

theorem foldl_establish {α σ : Type} (P Q : σ → Prop) (f : σ → α → σ)
    (hpres : ∀ s x, P s → P (f s x))
    (hQpres : ∀ s x, Q s → Q (f s x))
    (x : α) (hest : ∀ s, Q s → P (f s x)) :
    ∀ (l : List α) (s : σ), x ∈ l → Q s → P (l.foldl f s) := by
  intro l
  induction l with
  | nil => intro s hx _; exact absurd hx (List.not_mem_nil x)
  | cons a rest ih =>
    intro s hx hQ
    rw [List.foldl_cons]
    rcases List.mem_cons.mp hx with rfl | hx'
    · exact foldl_invariant P f rest (f s x) (hest s hQ)
        (fun s' y _ hy => hpres s' y hy)
    · exact ih (f s a) hx' (hQpres s a hQ)

theorem IdTerminal_mono {X : String} {a b : List WalletTransaction}
    (hmem : ∀ t ∈ b, isPendingStatus t.status = true → t ∈ a)
    (h : IdTerminal X a) : IdTerminal X b := by
  intro t ht hid
  cases hb : isPendingStatus t.status with
  | false => rfl
  | true =>
    have hterm := h t (hmem t ht hb) hid
    rw [hb] at hterm
    exact hterm

theorem syncSpentStage_ids (s : AccountState) (diff : UTXODiff)
    (pendingTxs : List WalletTransaction) (now : Int) :
    (syncSpentStage s diff pendingTxs now).txs.map (·.id) = s.txs.map (·.id) := by
  unfold syncSpentStage
  split
  · rfl
  · refine foldl_invariant (fun (cur : AccountState) =>
        cur.txs.map (·.id) = s.txs.map (·.id)) _ pendingTxs _ rfl ?_
    intro cur tx _ hP
    dsimp only
    split
    · rw [updateWalletTransaction_ids]
      exact hP
    · exact hP

theorem syncPrevSpentStage_ids (s : AccountState) (pendingTxs : List WalletTransaction)
    (diff : UTXODiff) (now : Int) :
    (syncPrevSpentStage s pendingTxs diff now).1.txs.map (·.id) = s.txs.map (·.id) := by
  rw [syncPrevSpentStage_eq]
  split
  · rfl
  · refine foldl_invariant (fun (cur : AccountState × Nat) =>
        cur.1.txs.map (·.id) = s.txs.map (·.id)) _ _ (s, 0) rfl ?_
    intro cur tx _ hP
    rcases htx : tx.inputNoteIds with _ | ⟨_ | ⟨i, ids⟩⟩ <;> simp only [htx]
    · exact hP
    · exact hP
    · split
      · rw [updateWalletTransaction_ids]
        exact hP
      · exact hP

theorem syncExpiryStage_ids (s : AccountState) (now : Int) :
    (syncExpiryStage s now).1.txs.map (·.id) = s.txs.map (·.id) := by
  rw [syncExpiryStage_fst]
  refine foldl_invariant (fun (cur : AccountState) =>
      cur.txs.map (·.id) = s.txs.map (·.id)) _ _ s rfl ?_
  intro cur tx _ hP
  rw [expiryStep_ids]
  exact hP

theorem syncNewStage_nodup {s : AccountState} {accountAddress : String}
    {diff : UTXODiff} {now : Int} {freshIds : List String}
    (h : (s.txs.map (·.id)).Nodup) :
    ((syncNewStage s accountAddress diff now freshIds).1.txs.map (·.id)).Nodup := by
  rw [syncNewStage_eq]
  have key : ((diff.newUTXOs.foldl (processNewUTXO accountAddress diff.isChangeMap now)
      (s, [], 0, 0, freshIds)).1.txs.map (·.id)).Nodup := by
    refine foldl_invariant
      (fun (cur : AccountState × List StoredNote × Nat × Nat × List String) =>
        (cur.1.txs.map (·.id)).Nodup) _ diff.newUTXOs (s, [], 0, 0, freshIds) h ?_
    intro cur u _ hP
    rcases hcls : classifyNewUTXO u diff.isChangeMap with ⟨b, o⟩
    rcases b with _ | _ <;> rcases o with _ | txId <;>
      simp only [processNewUTXO, hcls]
    · exact addWalletTransaction_nodup hP
    · exact addWalletTransaction_nodup hP
    · exact addWalletTransaction_nodup hP
    · exact hP
  split
  · exact key
  · rw [saveNotes_txs]
    exact key

theorem syncNewStage_pending_mem {s : AccountState} {accountAddress : String}
    {diff : UTXODiff} {now : Int} {freshIds : List String} {t : WalletTransaction}
    (ht : t ∈ (syncNewStage s accountAddress diff now freshIds).1.txs)
    (hp : isPendingStatus t.status = true) : t ∈ s.txs := by
  rw [syncNewStage_eq] at ht
  have hmem : t ∈ (diff.newUTXOs.foldl
      (processNewUTXO accountAddress diff.isChangeMap now)
      (s, [], 0, 0, freshIds)).1.txs := by
    split at ht
    · exact ht
    · rw [saveNotes_txs] at ht
      exact ht
  have hfold : t ∈ s.txs ∨ t.status = TxStatus.confirmed := by
    refine foldl_invariant
      (fun (cur : AccountState × List StoredNote × Nat × Nat × List String) =>
        ∀ t0 ∈ cur.1.txs, t0 ∈ s.txs ∨ t0.status = TxStatus.confirmed)
      _ diff.newUTXOs (s, [], 0, 0, freshIds) (fun t0 ht0 => Or.inl ht0) ?_ t hmem
    intro cur u _ hP t0 ht0
    rcases hcls : classifyNewUTXO u diff.isChangeMap with ⟨b, o⟩
    have ht0' := ht0
    rcases b with _ | _ <;> rcases o with _ | txId <;>
      simp only [processNewUTXO, hcls] at ht0'
    · rcases addWalletTransaction_mem ht0' with hmem1 | rfl
      · exact hP t0 hmem1
      · exact Or.inr rfl
    · rcases addWalletTransaction_mem ht0' with hmem1 | rfl
      · exact hP t0 hmem1
      · exact Or.inr rfl
    · rcases addWalletTransaction_mem ht0' with hmem1 | rfl
      · exact hP t0 hmem1
      · exact Or.inr rfl
    · exact hP t0 ht0'
  rcases hfold with hmem2 | hconf
  · exact hmem2
  · rw [hconf] at hp
    exact absurd hp (by decide)

theorem syncSpentStage_confirms {s : AccountState} {diff : UTXODiff}
    {pendingTxs : List WalletTransaction} {now : Int} {tx : WalletTransaction}
    (hnodup : (s.txs.map (·.id)).Nodup) (htx : tx ∈ pendingTxs)
    (harea : areTransactionInputsSpent tx diff.nowSpent = true) :
    IdTerminal tx.id (syncSpentStage s diff pendingTxs now).txs := by
  have hne : diff.nowSpent.isEmpty = false := by
    cases hns : diff.nowSpent with
    | nil =>
      rw [hns, area_nil] at harea
      exact absurd harea (by simp)
    | cons a l => rfl
  unfold syncSpentStage
  split
  · rename_i hemp
    rw [hemp] at hne
    exact absurd hne (by simp)
  · refine foldl_establish (fun (cur : AccountState) => IdTerminal tx.id cur.txs)
      (fun cur => cur.txs.map (·.id) = s.txs.map (·.id)) _ ?_ ?_ tx ?_ pendingTxs _ htx rfl
    · intro cur tx' hP
      dsimp only
      split
      · exact IdTerminal_update rfl (by decide) hP
      · exact hP
    · intro cur tx' hQ
      dsimp only
      split
      · rw [updateWalletTransaction_ids]
        exact hQ
      · exact hQ
    · intro cur hQ
      dsimp only
      rw [if_pos harea]
      exact IdTerminal_establish rfl (by decide) (by rw [hQ]; exact hnodup)

theorem syncPrevSpentStage_confirms {s : AccountState}
    {pendingTxs : List WalletTransaction} {diff : UTXODiff} {now : Int}
    {tx : WalletTransaction} {i : String} {is0 : List String}
    (hnodup : (s.txs.map (·.id)).Nodup) (htx : tx ∈ pendingTxs)
    (hnot : areTransactionInputsSpent tx diff.nowSpent = false)
    (hin : tx.inputNoteIds = some (i :: is0))
    (hall : (i :: is0).all (fun x =>
      (((s.notes.filter (fun n => n.state == NoteState.spent)).map (·.noteId)).contains x))
      = true) :
    IdTerminal tx.id (syncPrevSpentStage s pendingTxs diff now).1.txs := by
  rw [syncPrevSpentStage_eq]
  have hmem : tx ∈ pendingTxs.filter
      (fun tx => !(areTransactionInputsSpent tx diff.nowSpent)) :=
    List.mem_filter.mpr ⟨htx, by rw [hnot]; rfl⟩
  split
  · rename_i hemp
    cases hflt : pendingTxs.filter
        (fun tx => !(areTransactionInputsSpent tx diff.nowSpent)) with
    | nil =>
      rw [hflt] at hmem
      exact absurd hmem (List.not_mem_nil tx)
    | cons a l =>
      rw [hflt] at hemp
      exact absurd hemp (by simp)
  · refine foldl_establish (fun (cur : AccountState × Nat) => IdTerminal tx.id cur.1.txs)
      (fun cur => cur.1.txs.map (·.id) = s.txs.map (·.id)) _ ?_ ?_ tx ?_ _ (s, 0) hmem rfl
    · intro cur tx' hP
      rcases htx' : tx'.inputNoteIds with _ | ⟨_ | ⟨j, js⟩⟩ <;> simp only [htx']
      · exact hP
      · exact hP
      · split
        · exact IdTerminal_update rfl (by decide) hP
        · exact hP
    · intro cur tx' hQ
      rcases htx' : tx'.inputNoteIds with _ | ⟨_ | ⟨j, js⟩⟩ <;> simp only [htx']
      · exact hQ
      · exact hQ
      · split
        · rw [updateWalletTransaction_ids]
          exact hQ
        · exact hQ
    · intro cur hQ
      simp only [hin]
      rw [if_pos hall]
      exact IdTerminal_establish rfl (by decide) (by rw [hQ]; exact hnodup)

theorem syncExpiryStage_expires {s : AccountState} {now : Int} {tx : WalletTransaction}
    (hnodup : (s.txs.map (·.id)).Nodup)
    (htx : tx ∈ findExpiredTransactions s.txs TX_EXPIRY_MS now) :
    IdTerminal tx.id (syncExpiryStage s now).1.txs := by
  rw [syncExpiryStage_fst]
  refine foldl_establish (fun (cur : AccountState) => IdTerminal tx.id cur.txs)
    (fun cur => cur.txs.map (·.id) = s.txs.map (·.id)) _ ?_ ?_ tx ?_ _ s htx rfl
  · intro cur tx' hP
    unfold expiryStep
    refine IdTerminal_update rfl (by decide) ?_
    rw [expiryStep_inner_txs]
    exact hP
  · intro cur tx' hQ
    rw [expiryStep_ids]
    exact hQ
  · intro cur hQ
    unfold expiryStep
    refine IdTerminal_establish rfl (by decide) ?_
    rw [expiryStep_inner_txs, hQ]
    exact hnodup

/-! Facts about the state left by one full reconciliation pass, feeding
the idempotence analysis of the second pass. -/

theorem sync_nonspent_in_chain (s : AccountState) (accountAddress : String)
    (chain : List FetchedUTXO) (now : Int) (freshIds : List String) :
    ∀ n ∈ (syncAccountUTXOs s accountAddress chain now freshIds).1.notes,
      n.state ≠ NoteState.spent → n.noteId ∈ chain.map (·.noteId) := by
  intro n hn hns
  rw [syncAccountUTXOs_fst] at hn
  have hnD := removeSpentNotes_mem hn
  obtain ⟨o, ho, hrel⟩ := forall2_mem_right (syncExpiryStage_relD _ now) n hnD
  rw [syncPrevSpentStage_notes] at ho
  rcases hrel with heq | ⟨hfl, heq⟩
  · rw [heq] at hns ⊢
    exact stageB_nonspent_in_chain s accountAddress chain
      (getPendingOutgoingTransactions s) (getAllOutgoingTransactions s) now freshIds
      o ho hns
  · have hos : o.state ≠ NoteState.spent := by rw [hfl]; simp
    have hchain := stageB_nonspent_in_chain s accountAddress chain
      (getPendingOutgoingTransactions s) (getAllOutgoingTransactions s) now freshIds
      o ho hos
    rw [heq]
    exact hchain

theorem sync_chain_covered (s : AccountState) (accountAddress : String)
    (chain : List FetchedUTXO) (now : Int) (freshIds : List String)
    (hret : ∀ n ∈ s.notes, n.state = NoteState.spent →
      n.noteId ∈ chain.map (·.noteId) →
      (n.discoveredAt ≠ 0 ∧ n.discoveredAt > now - SPENT_RETENTION_MS)) :
    ∀ cid ∈ chain.map (·.noteId),
      cid ∈ (syncAccountUTXOs s accountAddress chain now freshIds).1.notes.map
        (·.noteId) := by
  intro cid hcid
  obtain ⟨m, hmB, hmid, hsurv⟩ := stageB_chain_ids_covered s accountAddress chain
    (getPendingOutgoingTransactions s) (getAllOutgoingTransactions s) now freshIds
    hret cid hcid
  have hmC : m ∈ (syncPrevSpentStage
      (syncNewStage
        (syncSpentStage s
          (computeUTXODiff s.notes chain (getPendingOutgoingTransactions s)
            (getAllOutgoingTransactions s))
          (getPendingOutgoingTransactions s) now)
        accountAddress
        (computeUTXODiff s.notes chain (getPendingOutgoingTransactions s)
          (getAllOutgoingTransactions s))
        now freshIds).1
      (getPendingOutgoingTransactions s)
      (computeUTXODiff s.notes chain (getPendingOutgoingTransactions s)
        (getAllOutgoingTransactions s))
      now).1.notes := by
    rw [syncPrevSpentStage_notes]
    exact hmB
  obtain ⟨m', hm'D, hrel⟩ := forall2_mem_left (syncExpiryStage_relD _ now) m hmC
  have hid' : m'.noteId = cid := by
    rcases hrel with heq | ⟨_, heq⟩
    · rw [heq]
      exact hmid
    · rw [heq]
      exact hmid
  have hsurv' : Survives now m' := by
    rcases hrel with heq | ⟨hfl, heq⟩
    · rw [heq]
      exact hsurv
    · rw [heq]
      exact Or.inl (by simp)
  rw [syncAccountUTXOs_fst, removeSpentNotes_notes]
  exact List.mem_map.mpr ⟨m', List.mem_filter.mpr ⟨hm'D, decide_eq_true hsurv'⟩, hid'⟩

theorem sync_spent_retained (s : AccountState) (accountAddress : String)
    (chain : List FetchedUTXO) (now : Int) (freshIds : List String) :
    ∀ n ∈ (syncAccountUTXOs s accountAddress chain now freshIds).1.notes,
      n.state ≠ NoteState.spent ∨
        (n.discoveredAt ≠ 0 ∧ n.discoveredAt > now - SPENT_RETENTION_MS) := by
  intro n hn
  rw [syncAccountUTXOs_fst, removeSpentNotes_notes] at hn
  exact of_decide_eq_true (List.mem_filter.mp hn).2

theorem sync_spent_mem_stageB (s : AccountState) (accountAddress : String)
    (chain : List FetchedUTXO) (now : Int) (freshIds : List String) :
    ∀ n ∈ (syncAccountUTXOs s accountAddress chain now freshIds).1.notes,
      n.state = NoteState.spent →
      n ∈ (syncNewStage
          (syncSpentStage s
            (computeUTXODiff s.notes chain (getPendingOutgoingTransactions s)
              (getAllOutgoingTransactions s))
            (getPendingOutgoingTransactions s) now)
          accountAddress
          (computeUTXODiff s.notes chain (getPendingOutgoingTransactions s)
            (getAllOutgoingTransactions s))
          now freshIds).1.notes := by
  intro n hn hsp
  rw [syncAccountUTXOs_fst] at hn
  have hnD := removeSpentNotes_mem hn
  obtain ⟨o, ho, hrel⟩ := forall2_mem_right (syncExpiryStage_relD _ now) n hnD
  rw [syncPrevSpentStage_notes] at ho
  rcases hrel with heq | ⟨hfl, heq⟩
  · rw [heq]
    exact ho
  · rw [heq] at hsp
    exact absurd hsp (by simp)

theorem spentIds_contains_mono {A B : List StoredNote}
    (h : ∀ n ∈ A, n.state = NoteState.spent → n ∈ B) (x : String)
    (hx : (((A.filter (fun n => n.state == NoteState.spent)).map
      (·.noteId)).contains x) = true) :
    (((B.filter (fun n => n.state == NoteState.spent)).map
      (·.noteId)).contains x) = true := by
  simp only [List.contains, List.elem_eq_mem, decide_eq_true_eq] at hx ⊢
  obtain ⟨n, hn, hnx⟩ := List.mem_map.mp hx
  have hnf := List.mem_filter.mp hn
  have hsp : n.state = NoteState.spent := by simpa using hnf.2
  exact List.mem_map.mpr ⟨n, List.mem_filter.mpr ⟨h n hnf.1 hsp, hnf.2⟩, hnx⟩

theorem sync_pending_not_confirmable (s : AccountState) (accountAddress : String)
    (chain : List FetchedUTXO) (now : Int) (freshIds : List String)
    (hnodup : (s.txs.map (·.id)).Nodup) :
    ∀ tx ∈ getPendingOutgoingTransactions
        (syncAccountUTXOs s accountAddress chain now freshIds).1,
      ∀ i is0, tx.inputNoteIds = some (i :: is0) →
        (i :: is0).all (fun x =>
          ((((syncAccountUTXOs s accountAddress chain now freshIds).1.notes.filter
            (fun n => n.state == NoteState.spent)).map (·.noteId)).contains x))
          = false := by
  intro tx htx i is0 hin
  rw [getPendingOutgoingTransactions_eq] at htx
  have htx1 := List.mem_filter.mp htx
  have hmem1 : tx ∈ (syncAccountUTXOs s accountAddress chain now freshIds).1.txs :=
    htx1.1
  have htx2 := htx1.2
  rw [Bool.and_eq_true] at htx2
  obtain ⟨hdir, hpend⟩ := htx2
  -- trace the still-pending transaction back to the pre-pass history
  have hmemD := hmem1
  rw [syncAccountUTXOs_fst, removeSpentNotes_txs] at hmemD
  have hmemC := syncExpiryStage_pending_mem hmemD hpend
  have hmemB := syncPrevSpentStage_pending_mem hmemC hpend
  have hmemA := syncNewStage_pending_mem hmemB hpend
  have hmemS := syncSpentStage_pending_mem hmemA hpend
  have htxP : tx ∈ getPendingOutgoingTransactions s := by
    rw [getPendingOutgoingTransactions_eq]
    exact List.mem_filter.mpr ⟨hmemS, by rw [Bool.and_eq_true]; exact ⟨hdir, hpend⟩⟩
  have hnodupA : (((syncSpentStage s
      (computeUTXODiff s.notes chain (getPendingOutgoingTransactions s)
        (getAllOutgoingTransactions s))
      (getPendingOutgoingTransactions s) now)).txs.map (·.id)).Nodup := by
    rw [syncSpentStage_ids]
    exact hnodup
  have hnodupB : (((syncNewStage
      (syncSpentStage s
        (computeUTXODiff s.notes chain (getPendingOutgoingTransactions s)
          (getAllOutgoingTransactions s))
        (getPendingOutgoingTransactions s) now)
      accountAddress
      (computeUTXODiff s.notes chain (getPendingOutgoingTransactions s)
        (getAllOutgoingTransactions s))
      now freshIds).1.txs).map (·.id)).Nodup := syncNewStage_nodup hnodupA
  -- the transaction cannot have been confirmed from the fresh diff
  cases harea : areTransactionInputsSpent tx
      (computeUTXODiff s.notes chain (getPendingOutgoingTransactions s)
        (getAllOutgoingTransactions s)).nowSpent with
  | true =>
    exfalso
    have hIdA : IdTerminal tx.id (syncSpentStage s
        (computeUTXODiff s.notes chain (getPendingOutgoingTransactions s)
          (getAllOutgoingTransactions s))
        (getPendingOutgoingTransactions s) now).txs :=
      syncSpentStage_confirms hnodup htxP harea
    have hId1 : IdTerminal tx.id
        (syncAccountUTXOs s accountAddress chain now freshIds).1.txs := by
      rw [syncAccountUTXOs_fst, removeSpentNotes_txs]
      exact IdTerminal_mono (fun t ht hp => syncExpiryStage_pending_mem ht hp)
        (IdTerminal_mono (fun t ht hp => syncPrevSpentStage_pending_mem ht hp)
          (IdTerminal_mono (fun t ht hp => syncNewStage_pending_mem ht hp) hIdA))
    have hterm := hId1 tx hmem1 rfl
    rw [hterm] at hpend
    exact absurd hpend (by simp)
  | false =>
    cases hall : (i :: is0).all (fun x =>
        ((((syncAccountUTXOs s accountAddress chain now freshIds).1.notes.filter
          (fun n => n.state == NoteState.spent)).map (·.noteId)).contains x)) with
    | false => rfl
    | true =>
      exfalso
      -- every input would also be spent in the stage-B state,
      -- so the prior-spent re-check would have confirmed the transaction
      have hmono := sync_spent_mem_stageB s accountAddress chain now freshIds
      have hallB : (i :: is0).all (fun x =>
          ((((syncNewStage
            (syncSpentStage s
              (computeUTXODiff s.notes chain (getPendingOutgoingTransactions s)
                (getAllOutgoingTransactions s))
              (getPendingOutgoingTransactions s) now)
            accountAddress
            (computeUTXODiff s.notes chain (getPendingOutgoingTransactions s)
              (getAllOutgoingTransactions s))
            now freshIds).1.notes.filter
            (fun n => n.state == NoteState.spent)).map (·.noteId)).contains x))
          = true := by
        rw [List.all_eq_true] at hall ⊢
        intro x hx
        exact spentIds_contains_mono hmono x (hall x hx)
      have hIdC : IdTerminal tx.id (syncPrevSpentStage
          (syncNewStage
            (syncSpentStage s
              (computeUTXODiff s.notes chain (getPendingOutgoingTransactions s)
                (getAllOutgoingTransactions s))
              (getPendingOutgoingTransactions s) now)
            accountAddress
            (computeUTXODiff s.notes chain (getPendingOutgoingTransactions s)
              (getAllOutgoingTransactions s))
            now freshIds).1
          (getPendingOutgoingTransactions s)
          (computeUTXODiff s.notes chain (getPendingOutgoingTransactions s)
            (getAllOutgoingTransactions s))
          now).1.txs :=
        syncPrevSpentStage_confirms hnodupB htxP harea hin hallB
      have hId1 : IdTerminal tx.id
          (syncAccountUTXOs s accountAddress chain now freshIds).1.txs := by
        rw [syncAccountUTXOs_fst, removeSpentNotes_txs]
        exact IdTerminal_mono (fun t ht hp => syncExpiryStage_pending_mem ht hp) hIdC
      have hterm := hId1 tx hmem1 rfl
      rw [hterm] at hpend
      exact absurd hpend (by simp)

theorem sync_none_expired (s : AccountState) (accountAddress : String)
    (chain : List FetchedUTXO) (now : Int) (freshIds : List String)
    (hnodup : (s.txs.map (·.id)).Nodup) :
    findExpiredTransactions
      (syncAccountUTXOs s accountAddress chain now freshIds).1.txs
      TX_EXPIRY_MS now = [] := by
  unfold findExpiredTransactions
  refine List.filter_eq_nil_iff.mpr ?_
  intro t ht hpred
  rw [Bool.and_eq_true, Bool.and_eq_true] at hpred
  obtain ⟨⟨hdir, hpend0⟩, hold⟩ := hpred
  have hpend : isPendingStatus t.status = true := hpend0
  have htD := ht
  rw [syncAccountUTXOs_fst, removeSpentNotes_txs] at htD
  have htC := syncExpiryStage_pending_mem htD hpend
  have htE : t ∈ findExpiredTransactions (syncPrevSpentStage
      (syncNewStage
        (syncSpentStage s
          (computeUTXODiff s.notes chain (getPendingOutgoingTransactions s)
            (getAllOutgoingTransactions s))
          (getPendingOutgoingTransactions s) now)
        accountAddress
        (computeUTXODiff s.notes chain (getPendingOutgoingTransactions s)
          (getAllOutgoingTransactions s))
        now freshIds).1
      (getPendingOutgoingTransactions s)
      (computeUTXODiff s.notes chain (getPendingOutgoingTransactions s)
        (getAllOutgoingTransactions s))
      now).1.txs TX_EXPIRY_MS now := by
    unfold findExpiredTransactions
    refine List.mem_filter.mpr ⟨htC, ?_⟩
    rw [Bool.and_eq_true, Bool.and_eq_true]
    exact ⟨⟨hdir, hpend0⟩, hold⟩
  have hnodupC : ((syncPrevSpentStage
      (syncNewStage
        (syncSpentStage s
          (computeUTXODiff s.notes chain (getPendingOutgoingTransactions s)
            (getAllOutgoingTransactions s))
          (getPendingOutgoingTransactions s) now)
        accountAddress
        (computeUTXODiff s.notes chain (getPendingOutgoingTransactions s)
          (getAllOutgoingTransactions s))
        now freshIds).1
      (getPendingOutgoingTransactions s)
      (computeUTXODiff s.notes chain (getPendingOutgoingTransactions s)
        (getAllOutgoingTransactions s))
      now).1.txs.map (·.id)).Nodup := by
    rw [syncPrevSpentStage_ids]
    exact syncNewStage_nodup (by rw [syncSpentStage_ids]; exact hnodup)
  have hId1 : IdTerminal t.id
      (syncAccountUTXOs s accountAddress chain now freshIds).1.txs := by
    rw [syncAccountUTXOs_fst, removeSpentNotes_txs]
    exact syncExpiryStage_expires hnodupC htE
  have hterm := hId1 t ht rfl
  rw [hterm] at hpend
  exact absurd hpend (by simp)

/-! Second-pass stage identities. -/

theorem nowSpent_nil {localNotes : List StoredNote} {chain : List FetchedUTXO}
    {pendingTxs allOut : List WalletTransaction}
    (h : ∀ n ∈ localNotes, n.state ≠ NoteState.spent →
      n.noteId ∈ chain.map (·.noteId)) :
    (computeUTXODiff localNotes chain pendingTxs allOut).nowSpent = [] := by
  rw [List.eq_nil_iff_forall_not_mem]
  intro n hn
  have hm := mem_nowSpent.mp hn
  exact hm.2.2 (h n hm.1 hm.2.1)

theorem newUTXOs_nil {localNotes : List StoredNote} {chain : List FetchedUTXO}
    {pendingTxs allOut : List WalletTransaction}
    (h : ∀ u ∈ chain, u.noteId ∈ localNotes.map (·.noteId)) :
    (computeUTXODiff localNotes chain pendingTxs allOut).newUTXOs = [] := by
  rw [List.eq_nil_iff_forall_not_mem]
  intro u hu
  have hm := newUTXO_not_local hu
  exact hm.2 (h u hm.1)

theorem syncSpentStage_nil {s : AccountState} {diff : UTXODiff}
    {pendingTxs : List WalletTransaction} {now : Int}
    (h : diff.nowSpent = []) :
    syncSpentStage s diff pendingTxs now = s := by
  unfold syncSpentStage
  rw [h]
  rfl

theorem syncNewStage_nil {s : AccountState} {accountAddress : String}
    {diff : UTXODiff} {now : Int} {freshIds : List String}
    (h : diff.newUTXOs = []) :
    syncNewStage s accountAddress diff now freshIds = (s, 0, 0) := by
  rw [syncNewStage_eq, h]
  rfl

theorem syncPrevSpentStage_id {s : AccountState} {pendingTxs : List WalletTransaction}
    {diff : UTXODiff} {now : Int}
    (h : ∀ tx ∈ pendingTxs, ∀ i is0, tx.inputNoteIds = some (i :: is0) →
      (i :: is0).all (fun x =>
        (((s.notes.filter (fun n => n.state == NoteState.spent)).map
          (·.noteId)).contains x)) = false) :
    syncPrevSpentStage s pendingTxs diff now = (s, 0) := by
  rw [syncPrevSpentStage_eq]
  split
  · rfl
  · refine foldl_id _ _ (s, 0) ?_
    intro tx htx acc
    have htxP : tx ∈ pendingTxs := (List.mem_filter.mp htx).1
    rcases hin : tx.inputNoteIds with _ | ⟨_ | ⟨i, is0⟩⟩ <;> simp only [hin]
    have hc := h tx htxP i is0 hin
    rw [if_neg (by rw [hc]; simp)]

theorem syncExpiryStage_nil {s : AccountState} {now : Int}
    (h : findExpiredTransactions s.txs TX_EXPIRY_MS now = []) :
    syncExpiryStage s now = (s, 0) := by
  rw [syncExpiryStage_eq, h]
  rfl

theorem removeSpentNotes_id {s : AccountState} {now maxAgeMs : Int}
    (h : ∀ n ∈ s.notes, n.state ≠ NoteState.spent ∨
      (n.discoveredAt ≠ 0 ∧ n.discoveredAt > now - maxAgeMs)) :
    removeSpentNotes s now maxAgeMs = s := by
  have hk : s.notes.filter (fun n =>
      n.state ≠ NoteState.spent ∨
        (n.discoveredAt ≠ 0 ∧ n.discoveredAt > now - maxAgeMs)) = s.notes :=
    List.filter_eq_self.mpr (fun n hn => decide_eq_true (h n hn))
  simp only [removeSpentNotes]
  rw [hk]
  rw [if_neg (lt_irrefl s.notes.length)]

theorem syncAccountUTXOs_eq (s : AccountState) (accountAddress : String)
    (chain : List FetchedUTXO) (now : Int) (freshIds : List String) :
    syncAccountUTXOs s accountAddress chain now freshIds =
      (removeSpentNotes
        (syncExpiryStage
          (syncPrevSpentStage
            (syncNewStage
              (syncSpentStage s
                (computeUTXODiff s.notes chain (getPendingOutgoingTransactions s)
                  (getAllOutgoingTransactions s))
                (getPendingOutgoingTransactions s) now)
              accountAddress
              (computeUTXODiff s.notes chain (getPendingOutgoingTransactions s)
                (getAllOutgoingTransactions s))
              now freshIds).1
            (getPendingOutgoingTransactions s)
            (computeUTXODiff s.notes chain (getPendingOutgoingTransactions s)
              (getAllOutgoingTransactions s))
            now).1
          now).1
        now SPENT_RETENTION_MS,
      { newIncoming := (syncNewStage
            (syncSpentStage s
              (computeUTXODiff s.notes chain (getPendingOutgoingTransactions s)
                (getAllOutgoingTransactions s))
              (getPendingOutgoingTransactions s) now)
            accountAddress
            (computeUTXODiff s.notes chain (getPendingOutgoingTransactions s)
              (getAllOutgoingTransactions s))
            now freshIds).2.1
        newChange := (syncNewStage
            (syncSpentStage s
              (computeUTXODiff s.notes chain (getPendingOutgoingTransactions s)
                (getAllOutgoingTransactions s))
              (getPendingOutgoingTransactions s) now)
            accountAddress
            (computeUTXODiff s.notes chain (getPendingOutgoingTransactions s)
              (getAllOutgoingTransactions s))
            now freshIds).2.2
        spent := (computeUTXODiff s.notes chain (getPendingOutgoingTransactions s)
            (getAllOutgoingTransactions s)).nowSpent.length
        confirmed := ((getPendingOutgoingTransactions s).filter (fun tx =>
            areTransactionInputsSpent tx
              (computeUTXODiff s.notes chain (getPendingOutgoingTransactions s)
                (getAllOutgoingTransactions s)).nowSpent)).length +
          (syncPrevSpentStage
            (syncNewStage
              (syncSpentStage s
                (computeUTXODiff s.notes chain (getPendingOutgoingTransactions s)
                  (getAllOutgoingTransactions s))
                (getPendingOutgoingTransactions s) now)
              accountAddress
              (computeUTXODiff s.notes chain (getPendingOutgoingTransactions s)
                (getAllOutgoingTransactions s))
              now freshIds).1
            (getPendingOutgoingTransactions s)
            (computeUTXODiff s.notes chain (getPendingOutgoingTransactions s)
              (getAllOutgoingTransactions s))
            now).2
        expired := (syncExpiryStage
            (syncPrevSpentStage
              (syncNewStage
                (syncSpentStage s
                  (computeUTXODiff s.notes chain (getPendingOutgoingTransactions s)
                    (getAllOutgoingTransactions s))
                  (getPendingOutgoingTransactions s) now)
                accountAddress
                (computeUTXODiff s.notes chain (getPendingOutgoingTransactions s)
                  (getAllOutgoingTransactions s))
                now freshIds).1
              (getPendingOutgoingTransactions s)
              (computeUTXODiff s.notes chain (getPendingOutgoingTransactions s)
                (getAllOutgoingTransactions s))
              now).1
            now).2 }) := rfl

/-- A reconciliation pass over a state already fully reconciled against
`chain` is the identity and reports an all-zero summary. The hypotheses
are exactly the facts established about the output of a first pass. -/
theorem syncAccountUTXOs_fixed (t : AccountState) (accountAddress : String)
    (chain : List FetchedUTXO) (now : Int) (freshIds : List String)
    (h1 : ∀ n ∈ t.notes, n.state ≠ NoteState.spent → n.noteId ∈ chain.map (·.noteId))
    (h2 : ∀ cid ∈ chain.map (·.noteId), cid ∈ t.notes.map (·.noteId))
    (h3 : ∀ n ∈ t.notes, n.state ≠ NoteState.spent ∨
      (n.discoveredAt ≠ 0 ∧ n.discoveredAt > now - SPENT_RETENTION_MS))
    (h4 : ∀ tx ∈ getPendingOutgoingTransactions t, ∀ i is0,
      tx.inputNoteIds = some (i :: is0) →
      (i :: is0).all (fun x =>
        (((t.notes.filter (fun n => n.state == NoteState.spent)).map
          (·.noteId)).contains x)) = false)
    (h5 : findExpiredTransactions t.txs TX_EXPIRY_MS now = []) :
    syncAccountUTXOs t accountAddress chain now freshIds =
      (t, { newIncoming := 0, newChange := 0, spent := 0, confirmed := 0,
            expired := 0 }) := by
  have hA : (computeUTXODiff t.notes chain (getPendingOutgoingTransactions t)
      (getAllOutgoingTransactions t)).nowSpent = [] := nowSpent_nil h1
  have hB : (computeUTXODiff t.notes chain (getPendingOutgoingTransactions t)
      (getAllOutgoingTransactions t)).newUTXOs = [] :=
    newUTXOs_nil (fun u hu => h2 u.noteId (List.mem_map.mpr ⟨u, hu, rfl⟩))
  rw [syncAccountUTXOs_eq]
  rw [syncSpentStage_nil hA, syncNewStage_nil hB]
  dsimp only
  rw [syncPrevSpentStage_id h4]
  dsimp only
  rw [syncExpiryStage_nil h5]
  dsimp only
  rw [removeSpentNotes_id h3]
  rw [hA]
  have hconf : ((getPendingOutgoingTransactions t).filter (fun tx =>
      areTransactionInputsSpent tx ([] : List StoredNote))) = [] :=
    List.filter_eq_nil_iff.mpr (fun tx _ => by rw [area_nil]; simp)
  rw [hconf]
  rfl

/-- C4 (amended): a second reconciliation pass over the same chain input
returns the exact first-pass state and an all-zero summary, under the
documented unique-transaction-id invariant on the history and provided
every locally `spent` note still visible on chain has a truthy
`discoveredAt` inside the 1-hour retention window of the cleanup step.
Without the retention proviso the cleanup purges such a note and the
second pass re-ingests it as a fresh incoming note (counterexample). -/
theorem syncAccountUTXOs_idempotent (s : AccountState) (accountAddress : String)
    (chain : List FetchedUTXO) (now : Int) (freshIds freshIds2 : List String)
    (hnodup : (s.txs.map (·.id)).Nodup)
    (hret : ∀ n ∈ s.notes, n.state = NoteState.spent →
      n.noteId ∈ chain.map (·.noteId) →
      (n.discoveredAt ≠ 0 ∧ n.discoveredAt > now - SPENT_RETENTION_MS)) :
    syncAccountUTXOs (syncAccountUTXOs s accountAddress chain now freshIds).1
      accountAddress chain now freshIds2 =
      ((syncAccountUTXOs s accountAddress chain now freshIds).1,
        { newIncoming := 0, newChange := 0, spent := 0, confirmed := 0,
          expired := 0 }) :=
  syncAccountUTXOs_fixed _ accountAddress chain now freshIds2
    (sync_nonspent_in_chain s accountAddress chain now freshIds)
    (sync_chain_covered s accountAddress chain now freshIds hret)
    (sync_spent_retained s accountAddress chain now freshIds)
    (sync_pending_not_confirmable s accountAddress chain now freshIds hnodup)
    (sync_none_expired s accountAddress chain now freshIds hnodup)

/-- A spent note with a falsy `discoveredAt` that is still visible on
chain: the first pass purges it, the second re-ingests it. -/
def idemCexNote : StoredNote :=
  { noteId := "a"
    accountAddress := "addr"
    sourceHash := "h"
    originPage := 0
    assets := 5
    nameFirst := "nf"
    nameLast := "nl"
    noteDataHashBase58 := "d"
    state := NoteState.spent
    isChange := none
    pendingTxId := none
    discoveredAt := 0 }

/-- The chain-visible twin of `idemCexNote`. -/
def idemCexUTXO : FetchedUTXO :=
  { noteId := "a"
    sourceHash := "h"
    originPage := 0
    assets := 5
    nameFirst := "nf"
    nameLast := "nl"
    noteDataHashBase58 := "d" }

/-- The starting account of the idempotence counterexample. -/
def idemCexState : AccountState :=
  { notes := [idemCexNote]
    version := 0
    txs := [] }

/-- An empty account being sent one fresh chain note: a concrete input
satisfying the amended idempotence hypotheses. -/
def idemWitState : AccountState :=
  { notes := []
    version := 0
    txs := [] }

/-- C4 counterexample: reconciliation is not idempotent for every local
state and chain input. A `spent` note with `discoveredAt = 0` (falsy)
that the chain still reports is purged by the first pass's cleanup and
re-ingested by the second pass as a new incoming note, so the second
run's state and summary differ. -/
theorem syncAccountUTXOs_idempotence_counterexample :
    syncAccountUTXOs (syncAccountUTXOs idemCexState "addr" [idemCexUTXO] 10 ["g1"]).1
        "addr" [idemCexUTXO] 10 ["g2"] ≠
      ((syncAccountUTXOs idemCexState "addr" [idemCexUTXO] 10 ["g1"]).1,
        { newIncoming := 0, newChange := 0, spent := 0, confirmed := 0,
          expired := 0 }) := by
  decide

/-- Witness for C4 (amended) at a concrete input: an empty account and a
one-note chain satisfy both hypotheses, and the theorem yields the
second-pass fixed point. -/
theorem syncAccountUTXOs_idempotent_witness :
    ((idemWitState.txs.map (·.id)).Nodup ∧
      (∀ n ∈ idemWitState.notes, n.state = NoteState.spent →
        n.noteId ∈ ([idemCexUTXO].map (·.noteId)) →
        (n.discoveredAt ≠ 0 ∧ n.discoveredAt > (10 : Int) - SPENT_RETENTION_MS))) ∧
    syncAccountUTXOs (syncAccountUTXOs idemWitState "addr" [idemCexUTXO] 10 ["g1"]).1
        "addr" [idemCexUTXO] 10 ["g2"] =
      ((syncAccountUTXOs idemWitState "addr" [idemCexUTXO] 10 ["g1"]).1,
        { newIncoming := 0, newChange := 0, spent := 0, confirmed := 0,
          expired := 0 }) :=
  ⟨⟨by decide, by decide⟩,
    syncAccountUTXOs_idempotent idemWitState "addr" [idemCexUTXO] 10 ["g1"] ["g2"]
      (by decide) (by decide)⟩

end Iris
